import Mathlib

/-!
# DockWatch / DockMate — verification of the reactive TUI core

Shallow embedding of the DockMate terminal dashboard (Go) and proofs about
its specification.  The embedding translates, function by function, the code
in `internal/tui/model.go`, `internal/tui/compose-view.go`,
`internal/docker/client.go` and the accompanying `tui` source files:

* raw text is modelled as `List Char` (Go strings; byte-wise lexicographic
  order on UTF-8 agrees with code-point order, which is what `List Char`
  comparison gives);
* Go `float64` values produced by `strconv.ParseFloat` on plain decimal
  input are modelled by exact rationals `ℚ`;
* Go machine integers that are provably non-negative on every reachable
  input (cursor, page, widths, percents) are modelled by `ℕ`, with Go's
  truncating integer division matching `Nat.div`;
* `sort.Slice` is modelled by a deterministic insertion sort driven by the
  exact Boolean comparator the Go code passes to it;
* Go maps used by the model (`projects`, `expandedProjects`) are modelled as
  association lists, since the code sorts the keys before iterating.
-/

namespace DockWatch

/-- Text, modelled as the list of characters of a Go string. -/
abbrev Str := List Char

/-- Coerce a Lean string literal into the embedding's text type. -/
def str (s : String) : Str := s.data

/-- ASCII lower-casing of one character, as `strings.ToLower` acts on the
ASCII range (the only range exercised by the statuses and units at play). -/
def lowerChar (c : Char) : Char :=
  if 'A' ≤ c ∧ c ≤ 'Z' then Char.ofNat (c.toNat + 32) else c

/-- `strings.ToLower` (ASCII fragment). -/
def strLower (s : Str) : Str := s.map lowerChar

/-- The ASCII white-space characters recognised by `strings.TrimSpace`. -/
def isSpaceChar (c : Char) : Bool :=
  c = ' ' ∨ c = '\t' ∨ c = '\n' ∨ c = '\r' ∨ c = (Char.ofNat 11) ∨ c = (Char.ofNat 12)

/-- Drop leading white space. -/
def trimLeft (s : Str) : Str := s.dropWhile isSpaceChar

/-- Drop trailing white space. -/
def trimRight (s : Str) : Str := (s.reverse.dropWhile isSpaceChar).reverse

/-- `strings.TrimSpace`. -/
def strTrim (s : Str) : Str := trimRight (trimLeft s)

/-- `strings.HasPrefix`. -/
def strStarts (s pre : Str) : Bool := pre.isPrefixOf s

/-- `strings.Contains` (substring search). -/
def strHas (s sub : Str) : Bool :=
  match s with
  | [] => sub.isEmpty
  | _ :: t => sub.isPrefixOf s || strHas t sub

/-- `strings.Split` on a single separator character. -/
def splitOnChar (c : Char) (s : Str) : List Str :=
  match s with
  | [] => [[]]
  | x :: t =>
    if x = c then [] :: splitOnChar c t
    else
      match splitOnChar c t with
      | [] => [[x]]
      | p :: ps => (x :: p) :: ps

/-!
## Runtime normalizer (`internal/docker/client.go`, `ListContainers`)

The state-derivation chain translated verbatim from
`internal/docker/client.go` lines 152–175 (the identical chain appears in
the docker branch of the newer client in `src/unnamed/part_003`,
lines 262–274).
-/

/-- Derive the normalized container `State` from the free-text status,
following the ordered prefix/substring rules of `ListContainers`. -/
def normalizeState (status : Str) : String :=
  let st := strLower (strTrim status)
  if strStarts st (str "up") then "running"
  else if strStarts st (str "paused") || strHas st (str "paused") then "paused"
  else if strHas st (str "restarting") then "restarting"
  else if strStarts st (str "exited") || strHas st (str "exited")
      || strHas st (str "dead") then "exited"
  else if strStarts st (str "created") then "created"
  else "unknown"

/-!
## Size/percentage parser (`internal/tui/model.go`, lines 437–518)

`strconv.ParseFloat` is only ever called on text drawn from the alphabet
`{0-9, '.', '-'}` (the `num` accumulator of `parseSize`) or on plain decimal
percent strings; on that fragment its value is the exact decimal value,
modelled here in `ℚ` by `parseDecQ`.
-/

/-- The characters the `parseSize` loop treats as numeric. -/
def isNumChar (c : Char) : Bool := ('0' ≤ c ∧ c ≤ '9') ∨ c = '.' ∨ c = '-'

/-- A decimal digit. -/
def isDigitChar (c : Char) : Bool := '0' ≤ c ∧ c ≤ '9'

/-- Numeric value of a digit string (most significant first). -/
def digitsVal (s : Str) : ℕ := s.foldl (fun a c => a * 10 + (c.toNat - 48)) 0

/-- `strconv.ParseFloat` restricted to the plain decimal fragment:
an optional leading minus sign, then digits with at most one decimal point
and at least one digit; anything else is a parse error (`none`). -/
def parseDecQ (s : Str) : Option ℚ :=
  let neg : Bool := match s with | c :: _ => c = '-' | [] => false
  let t : Str := if neg then s.drop 1 else s
  let sign : ℚ := if neg then -1 else 1
  match splitOnChar '.' t with
  | [ip] =>
    if ip ≠ [] ∧ ip.all isDigitChar then some (sign * digitsVal ip) else none
  | [ip, fp] =>
    if (ip ≠ [] ∨ fp ≠ []) ∧ ip.all isDigitChar ∧ fp.all isDigitChar then
      some (sign * (digitsVal ip + digitsVal fp / 10 ^ fp.length))
    else none
  | _ => none

/-- Body of `parseSize` on already-trimmed non-empty input. -/
def parseSizeCore (s1 : Str) : ℚ :=
  let s := s1.filter (fun c => ¬(c = ','))
  let num := s.takeWhile isNumChar
  let rest := s.dropWhile isNumChar
  let unit0 := strTrim rest
  if num = [] then 0
  else
    match parseDecQ num with
    | none => 0
    | some val =>
      let unit := strLower (strTrim unit0)
      if unit = str "b" ∨ unit = str "bytes" ∨ unit = str "byte" ∨ unit = [] then
        val
      else if unit = str "kb" ∨ unit = str "kib" then val * 1000
      else if unit = str "mb" ∨ unit = str "mib" then val * 1000 * 1000
      else if unit = str "gb" ∨ unit = str "gib" then val * 1000 * 1000 * 1000
      else if (str "b").isSuffixOf unit then
        let pre := unit.take (unit.length - 1)
        if pre = str "k" then val * 1000
        else if pre = str "m" then val * 1000 * 1000
        else if pre = str "g" then val * 1000 * 1000 * 1000
        else val
      else val

/-- `parseSize`: parse a human-readable size like "1.2kB" into bytes
(decimal-1000 scale), defaulting to zero on unparseable input. -/
def parseSize (s0 : Str) : ℚ :=
  let s1 := strTrim s0
  if s1 = [] then 0 else parseSizeCore s1

/-- `parseNetIO`: parse "1.2kB / 3.4kB" into the total byte count by
summing the `parseSize` of every "/"-separated part. -/
def parseNetIO (s0 : Str) : ℚ :=
  let s := strTrim s0
  if s = [] ∨ s = str "─" then 0
  else
    ((splitOnChar '/' s).map
      (fun p0 => let p := strTrim p0; if p = [] then 0 else parseSize p)).sum

/-- Remove one trailing occurrence of `suf` (`strings.TrimSuffix`). -/
def trimOneSuffix (s suf : Str) : Str :=
  if suf.isSuffixOf s then s.take (s.length - suf.length) else s

/-- `parsePercent`: convert "0.48%" to 0.48, defaulting to zero. -/
def parsePercent (s0 : Str) : ℚ :=
  let s := strTrim s0
  let s := trimOneSuffix s (str "%")
  (parseDecQ s).getD 0

end DockWatch

namespace DockWatch

/-!
## Canonical data model (`internal/docker/types.go`, `internal/tui/model.go`)

Only the fields the embedded functions read are carried (label-derived
compose fields other than the project name, and the purely cosmetic
`ConfigFile`/`Status` of a project, play no role in any embedded function).
-/

/-- `docker.Container`: one managed workload instance. -/
structure Container where
  ID : Str
  Names : List Str
  Image : Str
  Status : Str
  State : Str
  Memory : Str
  CPU : Str
  Ports : Str
  NetIO : Str
  BlockIO : Str
  ComposeProject : Str
deriving DecidableEq

/-- `docker.ComposeProject`: a named compose group. -/
structure ComposeProject where
  Name : Str
  Containers : List Container
  WorkingDir : Str
deriving DecidableEq

/-- `treeRow`: one row of the flattened compose tree.  The Go field
`container *docker.Container` is `nil` exactly on project rows, modelled
as an `Option`. -/
structure treeRow where
  isProject : Bool
  projectName : Str
  container : Option Container
  indent : ℕ
  running : ℕ
  total : ℕ
deriving DecidableEq

/-- `sortColumn`. -/
inductive sortColumn where
  | sortByID | sortByName | sortByMemory | sortByCPU | sortByNetIO
  | sortByBlockIO | sortByImage | sortByStatus | sortByPorts
deriving DecidableEq

export sortColumn (sortByID sortByName sortByMemory sortByCPU sortByNetIO
  sortByBlockIO sortByImage sortByStatus sortByPorts)

/-- `appMode` (the newer generation in `src/unnamed/part_006` adds
`modeInfo` and `modeHelp` to the enumeration of `internal/tui/model.go`). -/
inductive appMode where
  | modeNormal | modeColumnSelect | modeLogs | modeInfo | modeSettings
  | modeComposeView | modeHelp
deriving DecidableEq

export appMode (modeNormal modeColumnSelect modeLogs modeInfo modeSettings
  modeComposeView modeHelp)

/-- User `Settings` (the runtime/shell selections are irrelevant to the
embedded state transitions). -/
structure Settings where
  ColumnPercents : List ℕ
  RefreshInterval : ℕ
deriving DecidableEq

/-- The application `model` of `internal/tui/model.go` (Go maps become
association lists keyed by project name). -/
structure Model where
  containers : List Container
  projects : List (Str × ComposeProject)
  expandedProjects : List (Str × Bool)
  flatList : List treeRow
  cursor : ℕ
  page : ℕ
  maxContainersPerPage : ℕ
  terminalWidth : ℕ
  terminalHeight : ℕ
  err : Option Str
  loading : Bool
  message : Str
  statusMessage : Str
  logsVisible : Bool
  logPanelHeight : ℕ
  logsLines : List Str
  logsContainer : Str
  sortBy : sortColumn
  sortAsc : Bool
  columnMode : Bool
  selectedColumn : ℕ
  currentMode : appMode
  settings : Settings
  composeViewMode : Bool
  suspendRefresh : Bool
  settingsSelected : ℕ
deriving DecidableEq

/-- Go map read with default (`m[k]` yields the zero value on a miss). -/
def assocGet (l : List (Str × Bool)) (k : Str) : Bool :=
  match l.find? (fun p => p.1 = k) with
  | some p => p.2
  | none => false

/-- Go map key-membership test (`_, ok := m[k]`). -/
def assocHas {β : Type} (l : List (Str × β)) (k : Str) : Bool :=
  (l.find? (fun p => p.1 = k)).isSome

/-- Go map lookup returning the value when present. -/
def assocFind {β : Type} (l : List (Str × β)) (k : Str) : Option β :=
  (l.find? (fun p => p.1 = k)).map Prod.snd

/-- Layout sizing constants of `internal/tui/model.go`. -/
def HEADER_HEIGHT : ℕ := 8

/-- One rendered container row occupies one terminal line. -/
def CONTAINER_ROW_HEIGHT : ℕ := 1

/-- Decimal rendering of a number for the page indicator. -/
def natToStr (n : ℕ) : Str := Nat.toDigits 10 n

/-- `calculateMaxContainers`: how many rows fit on screen
(`internal/tui/model.go` lines 521–531; Go's possibly negative
`availableHeight` divided by 1 is `< 1` exactly when the truncating `ℕ`
subtraction yields `0`, so the clamp to `1` agrees). -/
def calculateMaxContainers (m : Model) : ℕ :=
  let availableHeight := m.terminalHeight - HEADER_HEIGHT
  let availableHeight :=
    if m.logsVisible then availableHeight - m.logPanelHeight else availableHeight
  let maxContainers := availableHeight / CONTAINER_ROW_HEIGHT
  if maxContainers < 1 then 1 else maxContainers

/-- `updatePagination` (`internal/tui/model.go` lines 533–575); the Go
method mutates `m` field by field, rendered here as a chain of let-bound
values feeding one final record update (the empty case returns early in Go,
before the page-indicator message is touched). -/
def updatePagination (m : Model) : Model :=
  let per1 := calculateMaxContainers m
  let per := if per1 < 1 then 1 else per1
  if m.containers.length = 0 then
    { m with maxContainersPerPage := per, cursor := 0, page := 0 }
  else
    let c := if m.cursor ≥ m.containers.length then
        m.containers.length - 1 else m.cursor
    let maxPage := (m.containers.length - 1) / per
    let pg1 := if m.page > maxPage then maxPage else m.page
    let pg2 := if c < pg1 * per then c / per else pg1
    let pg3 := if c ≥ (pg2 + 1) * per then c / per else pg2
    let maxPage2 := (m.containers.length - 1) / per
    { m with
      maxContainersPerPage := per
      cursor := c
      page := pg3
      message :=
        if per > 0 then
          str "Page " ++ natToStr (pg3 + 1) ++ str "/" ++ natToStr (maxPage2 + 1)
        else
          str "Page " ++ natToStr (pg3 + 1) ++ str "/1" }

end DockWatch

namespace DockWatch

/-!
## Sort engine (`internal/tui/model.go` lines 366–434, 779–825)

`sort.Slice` receives the Boolean closure built in `sortContainers`
(`lessContainer` when ascending, its negation when descending).  On slices
shorter than twelve elements — in particular on every concrete input
evaluated below — the Go standard library's `pdqsort` runs its
plain insertion sort: each successive element is appended to the sorted
prefix and then swapped leftwards as long as the comparator holds of it
and its current left neighbour (`for j := i; j > a && data.Less(j, j-1);
j--`).  `bubbleRev` performs one such insertion on the working list kept
in reversed order (so the new element enters at the head and "left" means
towards the tail), and `sortGo` folds it over the slice left to right and
reverses back.  Like Go's loop, this sort is stable on tied pairs under an
irreflexive comparator and performs the swap on tied pairs under the
negated (descending) comparator.
-/

/-- One inner loop of Go's insertion sort, acting on the reversed prefix:
the freshly appended element `x` keeps swapping left (towards the tail of
the reversed list) while the comparator holds of it and its current left
neighbour `y`. -/
def bubbleRev {α : Type} (p : α → α → Bool) (x : α) : List α → List α
  | [] => [x]
  | y :: ys => if p x y then y :: bubbleRev p x ys else x :: y :: ys

/-- Go's insertion sort — the algorithm `sort.Slice` runs on short slices —
with Boolean comparator `p`: elements are inserted left to right, each one
bubbling leftwards while the comparator holds; the working list is kept
reversed and restored at the end. -/
def sortGo {α : Type} (p : α → α → Bool) (l : List α) : List α :=
  (l.foldl (fun acc x => bubbleRev p x acc) []).reverse

/-- First display name of a container, `""` when there is none. -/
def headName (a : Container) : Str :=
  match a.Names with
  | n :: _ => n
  | [] => []

/-- `lessContainer`: the per-column comparison closure of `sortContainers`
(the Go `default` branch is unreachable for the nine-valued enum and
coincides with the `sortByID` branch). -/
def lessContainer (col : sortColumn) (a b : Container) : Bool :=
  match col with
  | sortByID => a.ID < b.ID
  | sortByName => strLower (headName a) < strLower (headName b)
  | sortByMemory => parsePercent a.Memory < parsePercent b.Memory
  | sortByCPU => parsePercent a.CPU < parsePercent b.CPU
  | sortByImage => strLower a.Image < strLower b.Image
  | sortByStatus => strLower a.Status < strLower b.Status
  | sortByPorts => strLower a.Ports < strLower b.Ports
  | sortByNetIO => parseNetIO a.NetIO < parseNetIO b.NetIO
  | sortByBlockIO => parseNetIO a.BlockIO < parseNetIO b.BlockIO

/-- The closure `sortContainers` hands to `sort.Slice`. -/
def goCmp (asc : Bool) (col : sortColumn) (a b : Container) : Bool :=
  if asc then lessContainer col a b else !(lessContainer col a b)

/-!
## Compose tree builder (`internal/tui/compose-view.go` lines 12–89; the
identical function appears in `internal/tui/model.go` lines 2032–2109)
-/

/-- `sort.Strings`, modelled with the same deterministic sort over the
byte-lexicographic string order. -/
def sortStrings (l : List Str) : List Str :=
  sortGo (fun a b => a < b) l

/-- Count of members whose lower-cased state is "running". -/
def runningCount (cs : List Container) : ℕ :=
  (cs.filter (fun c => strLower c.State = str "running")).length

/-- A container leaf row of the flattened tree (Go zero values for the
project-only fields). -/
def leafRow (c : Container) : treeRow :=
  { isProject := false, projectName := [], container := some c, indent := 1,
    running := 0, total := 0 }

/-- The rows contributed by one named project: its header and, when the
project is expanded, its member rows. -/
def projectRows (m : Model) (name : Str) : List treeRow :=
  match assocFind m.projects name with
  | none => []
  | some project =>
    { isProject := true, projectName := name, container := none, indent := 0,
      running := runningCount project.Containers,
      total := project.Containers.length } ::
      (if assocGet m.expandedProjects name then project.Containers.map leafRow
       else [])

/-- The identifiers of every compose-project member (`composeContainerIDs`). -/
def composeIds (m : Model) : List Str :=
  m.projects.flatMap (fun np => np.2.Containers.map Container.ID)

/-- Containers outside every compose project (`standaloneContainers`;
the Go set-membership test on `composeContainerIDs` is list membership). -/
def standaloneContainers (m : Model) : List Container :=
  m.containers.filter (fun c => !(decide (c.ID ∈ composeIds m)))

/-- The trailing synthetic "Standalone Containers" block. -/
def standaloneRows (m : Model) : List treeRow :=
  let standalone := standaloneContainers m
  if standalone.length > 0 then
    { isProject := true, projectName := str "Standalone Containers",
      container := none, indent := 0, running := 0,
      total := standalone.length } ::
      (if assocGet m.expandedProjects (str "Standalone Containers") then
        standalone.map leafRow
       else [])
  else []

/-- `buildFlatList`: the flattened tree, rebuilt from scratch. -/
def buildFlatList (m : Model) : Model :=
  let projectNames := sortStrings (m.projects.map Prod.fst)
  { m with flatList := projectNames.flatMap (projectRows m) ++ standaloneRows m }

/-- `sortContainers` (`internal/tui/model.go` lines 367–434): sorts the main
slice, then every project's member slice, and rebuilds the flattened tree
when compose view is active. -/
def sortContainers (m : Model) : Model :=
  let cmp := goCmp m.sortAsc m.sortBy
  let m := { m with containers := sortGo cmp m.containers }
  if m.projects.length > 0 then
    let sorted := m.projects.map
      (fun np => (np.1, { np.2 with Containers := sortGo cmp np.2.Containers }))
    let m := { m with projects := sorted }
    if m.composeViewMode then buildFlatList m else m
  else m

/-- Column-index decoding of the `enter` handler (`internal/tui/model.go`
lines 785–804); for an out-of-range index the Go `col` keeps its zero
value, which is `sortByID`. -/
def colOfIndex (i : ℕ) : sortColumn :=
  match i with
  | 0 => sortByID
  | 1 => sortByName
  | 2 => sortByMemory
  | 3 => sortByCPU
  | 4 => sortByNetIO
  | 5 => sortByBlockIO
  | 6 => sortByImage
  | 7 => sortByStatus
  | 8 => sortByPorts
  | _ => sortByID

/-- Display names of the nine columns, for the sort feedback message. -/
def colNames : List Str :=
  [str "ID", str "Name", str "Memory", str "CPU", str "NET I/O",
   str "Disk I/O", str "Image", str "Status", str "PORTS"]

/-- The `enter` key in column-select mode (`internal/tui/model.go` lines
779–825): re-selecting the active column flips the direction, selecting a
different column resets to ascending, then the collection is re-sorted
(the Go `canSort` flag is the constant `true`). -/
def updateEnterColumn (m : Model) : Model :=
  if m.columnMode then
    let col := colOfIndex m.selectedColumn
    let m := if m.sortBy = col then { m with sortAsc := !m.sortAsc }
             else { m with sortBy := col, sortAsc := true }
    let m := sortContainers m
    let feedback := str "Sorted by " ++ colNames.getD m.selectedColumn [] ++
      (if m.sortAsc then str " (asc)" else str " (desc)")
    { m with statusMessage := feedback }
  else m

end DockWatch

namespace DockWatch

section SortLemmas

variable {α : Type} {p : α → α → Bool}

/-- Asymmetry of a strict comparator. -/
def Asymm (p : α → α → Bool) : Prop := ∀ a b, p a b = true → p b a = false

/-- Co-transitivity: when `a` is strictly below `b`, any third element `c`
is either strictly above `a` or strictly below `b`. -/
def Cotrans (p : α → α → Bool) : Prop :=
  ∀ a b c, p a b = true → p a c = true ∨ p c b = true

/-- Ascending-sortedness for a strict comparator: no later element is
strictly below an earlier one. -/
def SortedA (p : α → α → Bool) (l : List α) : Prop :=
  List.Pairwise (fun a b => p b a = false) l

end SortLemmas

end DockWatch

namespace DockWatch

/-- `InitialModel` (`internal/tui/model.go` lines 262–289): the startup
state (the wall-clock start time is not part of the embedding). -/
def InitialModel : Model :=
  { containers := []
    projects := []
    expandedProjects := []
    flatList := []
    cursor := 0
    page := 0
    maxContainersPerPage := 12
    terminalWidth := 0
    terminalHeight := 0
    err := none
    loading := true
    message := []
    statusMessage := []
    logsVisible := false
    logPanelHeight := 15
    logsLines := []
    logsContainer := []
    sortBy := sortByStatus
    sortAsc := false
    columnMode := false
    selectedColumn := 7
    currentMode := modeNormal
    settings := { ColumnPercents := [8, 14, 6, 6, 10, 12, 18, 13, 13],
                  RefreshInterval := 2 }
    composeViewMode := false
    suspendRefresh := false
    settingsSelected := 0 }

/-- A container with every display field concrete. -/
def mkContainer (id nm status : String) : Container :=
  { ID := str id
    Names := [str nm]
    Image := str "nginx:latest"
    Status := str status
    State := normalizeState (str status) |>.data
    Memory := str "0.48%"
    CPU := str "1.2%"
    Ports := str "80/tcp"
    NetIO := str "1.2kB / 850B"
    BlockIO := str "0B / 0B"
    ComposeProject := [] }

/-- Two containers whose status strings tie under the status comparator,
with the Status column not yet active: the cursor sits on the Status
column but the current sort key is the ID column, so pressing `enter` is a
fresh selection. -/
def tieModel : Model :=
  { InitialModel with
    containers := [mkContainer "a1" "alpha" "Up 2 minutes",
                   mkContainer "b2" "beta" "Up 2 minutes"]
    columnMode := true
    currentMode := modeColumnSelect
    sortBy := sortByID
    sortAsc := true }

/-- The same status-tied collection, but with the Status column already
active in ascending order, so that the next press toggles it to
descending. -/
def tieToggleModel : Model :=
  { tieModel with sortBy := sortByStatus }

end DockWatch

namespace DockWatch

/-!
## Data-bearing completion messages (`internal/tui/model.go` lines 593–661)
-/

/-- `docker.ContainersMsg`. -/
structure ContainersMsg where
  Containers : List Container
  Err : Option Str

/-- `docker.LogsMsg`. -/
structure LogsMsg where
  ID : Str
  Lines : List Str
  Err : Option Str

/-- `composeProjectsMsg`. -/
structure composeProjectsMsg where
  Projects : List (Str × ComposeProject)
  Err : Option Str

/-- The `docker.ContainersMsg` case of `Update` (lines 593–615). -/
def updateContainersMsg (m0 : Model) (msg : ContainersMsg) : Model :=
  let m1 := { m0 with loading := false }
  let m2 : Model :=
    match msg.Err with
    | some e => { m1 with err := some e }
    | none =>
      let m := { m1 with containers := msg.Containers, err := none }
      let m := sortContainers m
      if m.currentMode = modeComposeView then buildFlatList m else m
  let m3 := if m2.cursor ≥ m2.containers.length then
      { m2 with cursor := max 0 (m2.containers.length - 1) } else m2
  updatePagination m3

/-- The `composeProjectsMsg` case of `Update` (lines 617–647); the Go `nil`
map check and `make` are no-ops on the association-list model, and the
default-expansion loop ranges over the project keys. -/
def updateComposeMsg (m0 : Model) (msg : composeProjectsMsg) : Model :=
  let m1 := { m0 with loading := false }
  let m2 : Model :=
    match msg.Err with
    | some e =>
      { m1 with
        err := some e
        statusMessage := str "Error fetching compose projects: " ++ e }
    | none =>
      let m := { m1 with projects := msg.Projects }
      let expanded := (msg.Projects.map Prod.fst).foldl
        (fun acc name => if assocHas acc name then acc else acc ++ [(name, true)])
        m.expandedProjects
      let expanded := if assocHas expanded (str "Standalone Containers") then
          expanded
        else expanded ++ [(str "Standalone Containers", true)]
      let m := { m with expandedProjects := expanded }
      let m := buildFlatList m
      if m.cursor ≥ m.flatList.length then
        { m with cursor := max 0 (m.flatList.length - 1) }
      else m
  updatePagination m2

/-- The `docker.LogsMsg` case of `Update` (lines 649–661). -/
def updateLogsMsg (m0 : Model) (msg : LogsMsg) : Model :=
  let m1 : Model :=
    match msg.Err with
    | some e =>
      { m0 with
        statusMessage := str "Logs error: " ++ e
        logsLines := []
        logsVisible := false }
    | none =>
      { m0 with
        logsLines := msg.Lines
        logsContainer := msg.ID
        logsVisible := true }
  updatePagination m1

end DockWatch

namespace DockWatch

/-!
## Layout solver: column width allocation (`internal/tui/model.go`
lines 1275–1308, identical in `src/unnamed/part_005` lines 994–1024)
-/

/-- The hard-coded column minimum widths (`mins`). -/
def colMins : List ℕ := [13, 17, 8, 6, 10, 11, 11, 13, 15]

/-- The fallback percentages used when the settings are malformed. -/
def fallbackPercents : List ℕ := [8, 14, 6, 6, 10, 12, 11, 13, 15]

/-- One inner pass of the remainder loop: add one unit to each of the first
`k` columns. -/
def bumpFirst : ℕ → List ℕ → List ℕ
  | 0, ws => ws
  | _ + 1, [] => []
  | k + 1, w :: ws => (w + 1) :: bumpFirst k ws

/-- The round-robin remainder loop: while any remainder is left, walk the
columns left to right adding one unit at a time.  (With no columns at all
the Go loop would never terminate; the embedding returns the empty list on
that unreachable input.) -/
def distributeRemainder : ℕ → List ℕ → List ℕ
  | 0, ws => ws
  | r + 1, ws =>
    if h : ws = [] then ws
    else distributeRemainder (r + 1 - min (r + 1) ws.length)
      (bumpFirst (min (r + 1) ws.length) ws)
termination_by r ws => r
decreasing_by
  have : 0 < ws.length := List.length_pos.2 h
  omega

/-- The width allocation of `View`: per-column `max(minimum, floor(usable *
percent/100))`, then round-robin distribution of any unallocated
remainder. -/
def allocateWidths (usableWidth : ℕ) (percents0 : List ℕ) : List ℕ :=
  let percents := if percents0.length = 9 then percents0 else fallbackPercents
  let widths := List.zipWith
    (fun mn pc => max mn (usableWidth * pc / 100)) colMins percents
  let allocated := widths.sum
  if allocated < usableWidth then
    distributeRemainder (usableWidth - allocated) widths
  else widths

/-- The width computation as `View` performs it for a terminal of the given
width (minimum width 80, two columns of fixed chrome). -/
def viewWidths (m : Model) : List ℕ :=
  let width := if m.terminalWidth < 80 then 80 else m.terminalWidth
  let usableWidth := width - 2
  allocateWidths usableWidth m.settings.ColumnPercents

end DockWatch

namespace DockWatch

/-!
## Async command dispatch for ticks, and the Settings / Help toggles
(`internal/tui/model.go` lines 673–687 and 733–766; the `?` Help toggle of
the newer generation is `src/unnamed/part_005` lines 409–420, whose
`tickMsg` case at lines 310–322 is identical)
-/

/-- The commands the embedded handlers can issue. -/
inductive Cmd where
  | tick
  | fetchContainers
  | fetchComposeProjects
  | fetchLogs (id : Str)
deriving DecidableEq

/-- The `tickMsg` case of `Update`: reschedule the tick and issue the
fetches appropriate to the current state (in `tea.Batch` argument order). -/
def updateTickMsg (m : Model) : Model × List Cmd :=
  if m.suspendRefresh then (m, [Cmd.tick])
  else if m.logsVisible ∧ m.logsContainer ≠ [] then
    (m, [Cmd.fetchContainers, Cmd.tick, Cmd.fetchLogs m.logsContainer])
  else if m.composeViewMode then
    (m, [Cmd.fetchComposeProjects, Cmd.tick])
  else (m, [Cmd.fetchContainers, Cmd.tick])

/-- The hard-coded default column percentages restored by the
normalisation code. -/
def defaultColumnPercents : List ℕ := [8, 14, 6, 6, 10, 12, 18, 13, 13]

/-- The percent normalisation performed on leaving Settings via `f2` (and
on the save path): zero totals reset to the defaults;
other totals are proportionally rescaled with the rounding shortfall added
to the first column. -/
def normalizePercents (ps : List ℕ) : List ℕ :=
  let total := ps.sum
  if total = 0 then defaultColumnPercents
  else if total ≠ 100 then
    let newp := ps.map (fun p => p * 100 / total)
    let acc := newp.sum
    if acc < 100 then
      match newp with
      | [] => []
      | x :: rest => (x + (100 - acc)) :: rest
    else newp
  else ps

/-- The `f2` key: toggle Settings mode, suspending the periodic refresh
while inside and normalising the column percents on the way out. -/
def updateKeyF2 (m : Model) : Model × List Cmd :=
  if m.currentMode = modeSettings then
    ({ m with
        currentMode := modeNormal
        suspendRefresh := false
        statusMessage := str "Settings closed"
        settings := { m.settings with
          ColumnPercents := normalizePercents m.settings.ColumnPercents } }, [])
  else
    ({ m with
        currentMode := modeSettings
        suspendRefresh := true
        statusMessage := str "Settings: adjust column % and refresh interval" },
      [])

/-- The `?` key of the newer generation: toggle Help mode, suspending the
periodic refresh while it is open. -/
def updateKeyHelp (m : Model) : Model × List Cmd :=
  if m.currentMode = modeHelp then
    ({ m with
        currentMode := modeNormal
        suspendRefresh := false
        statusMessage := str "Help closed" }, [])
  else
    ({ m with
        currentMode := modeHelp
        suspendRefresh := true
        statusMessage := str "Help: Keyboard shortcuts" }, [])

/-- The `right`/`l`/`+` key in Settings mode: bump the selected column
percent (or the refresh interval, capped at 300). -/
def updateSettingsPlus (m : Model) : Model :=
  let m := if m.settings.ColumnPercents.length ≠ 9 then
      { m with settings :=
          { m.settings with ColumnPercents := defaultColumnPercents } }
    else m
  if m.settingsSelected ≤ 8 then
    let newPcts := m.settings.ColumnPercents.set m.settingsSelected
      (m.settings.ColumnPercents.getD m.settingsSelected 0 + 1)
    { m with settings := { m.settings with ColumnPercents := newPcts } }
  else if m.settingsSelected = 9 then
    if m.settings.RefreshInterval < 300 then
      { m with settings := { m.settings with
          RefreshInterval := m.settings.RefreshInterval + 1 } }
    else m
  else m

/-- The `left`/`h`/`-` key in Settings mode: decrement the selected column
percent (floored at 1) or the refresh interval (floored at 1 second). -/
def updateSettingsMinus (m : Model) : Model :=
  let m := if m.settings.ColumnPercents.length ≠ 9 then
      { m with settings :=
          { m.settings with ColumnPercents := defaultColumnPercents } }
    else m
  if m.settingsSelected ≤ 8 then
    if m.settings.ColumnPercents.getD m.settingsSelected 0 > 1 then
      let newPcts := m.settings.ColumnPercents.set m.settingsSelected
        (m.settings.ColumnPercents.getD m.settingsSelected 0 - 1)
      { m with settings := { m.settings with ColumnPercents := newPcts } }
    else m
  else if m.settingsSelected = 9 then
    if m.settings.RefreshInterval > 1 then
      { m with settings := { m.settings with
          RefreshInterval := m.settings.RefreshInterval - 1 } }
    else m
  else m

/-- The `esc` key in Settings mode: leave Settings without touching the
column percents. -/
def updateSettingsEsc (m : Model) : Model :=
  { m with
    currentMode := modeNormal
    suspendRefresh := false
    statusMessage := str "Settings closed" }

end DockWatch

namespace DockWatch

/-!
## ComposeView cursor movement (`internal/tui/compose-view.go`
lines 245–263).  (An older generation of the movers, in
`internal/tui/model.go` lines 2112–2157, seeks past header rows; the
current `compose-view.go` implementation embedded here moves by single
rows.)
-/

/-- `moveCursorUpTree` of `compose-view.go`: move one row up, clamped. -/
def moveCursorUpTree (flatList : List treeRow) (cursor : ℕ) : ℕ :=
  if flatList.length = 0 then 0
  else if cursor > 0 then cursor - 1 else cursor

/-- `moveCursorDownTree` of `compose-view.go`: move one row down,
clamped. -/
def moveCursorDownTree (flatList : List treeRow) (cursor : ℕ) : ℕ :=
  if flatList.length = 0 then 0
  else if cursor < flatList.length - 1 then cursor + 1 else cursor

/-- A header row as `buildFlatList` constructs it. -/
def headerRow (name : Str) (running total : ℕ) : treeRow :=
  { isProject := true, projectName := name, container := none, indent := 0,
    running := running, total := total }

/-- A concrete flattened tree: header, leaf, header, leaf. -/
def sampleTree : List treeRow :=
  [headerRow (str "web") 1 1,
   leafRow (mkContainer "a1" "alpha" "Up 2 minutes"),
   headerRow (str "Standalone Containers") 0 1,
   leafRow (mkContainer "b2" "beta" "Exited (0) 3 hours ago")]

/-- The same tree with every header flag flipped off. -/
def sampleTreeNoHeaders : List treeRow :=
  sampleTree.map (fun r => { r with isProject := false })

end DockWatch

/-- C4: every raw status string normalizes into the six-value `State`
enumeration via the ordered prefix/substring rules, and in particular
"Up 2 minutes" ↦ running, "Exited (0) 3 hours ago" ↦ exited,
"Created" ↦ created and "garbage" ↦ unknown. -/
theorem C4_normalizeState_total_and_examples :
    (∀ s : DockWatch.Str,
      DockWatch.normalizeState s ∈
        ["running", "paused", "restarting", "exited", "created", "unknown"]) ∧
    DockWatch.normalizeState (DockWatch.str "Up 2 minutes") = "running" ∧
    DockWatch.normalizeState (DockWatch.str "Exited (0) 3 hours ago") = "exited" ∧
    DockWatch.normalizeState (DockWatch.str "Created") = "created" ∧
    DockWatch.normalizeState (DockWatch.str "garbage") = "unknown" := by
  refine ⟨?_, by decide, by decide, by decide, by decide⟩
  intro s
  unfold DockWatch.normalizeState
  dsimp only
  split
  · simp
  · split
    · simp
    · split
      · simp
      · split
        · simp
        · split <;> simp

namespace DockWatch

/-! ### Elementary facts about trimming and splitting -/

theorem dropWhile_append_of_nil {p : Char → Bool} {xs ys : Str}
    (h : xs.dropWhile p = []) : (xs ++ ys).dropWhile p = ys.dropWhile p := by
  induction xs with
  | nil => simp
  | cons x t ih =>
    by_cases hx : p x
    · simp only [List.cons_append, List.dropWhile_cons, hx, if_true]
      exact ih (by simpa [List.dropWhile_cons, hx] using h)
    · simp [List.dropWhile_cons, hx] at h

theorem dropWhile_append_of_cons {p : Char → Bool} {xs ys zs : Str} {z : Char}
    (h : xs.dropWhile p = z :: zs) : (xs ++ ys).dropWhile p = z :: (zs ++ ys) := by
  induction xs with
  | nil => simp at h
  | cons x t ih =>
    by_cases hx : p x
    · simp only [List.cons_append, List.dropWhile_cons, hx, if_true]
      exact ih (by simpa [List.dropWhile_cons, hx] using h)
    · simp [List.dropWhile_cons, hx] at h
      obtain ⟨rfl, rfl⟩ := h
      simp [List.dropWhile_cons, hx]

theorem dropWhile_append_cons {p : Char → Bool} {c : Char} (hc : p c = false)
    (a b : Str) : (a ++ c :: b).dropWhile p = a.dropWhile p ++ c :: b := by
  cases h : a.dropWhile p with
  | nil => rw [dropWhile_append_of_nil h]; simp [List.dropWhile_cons, hc]
  | cons z zs => rw [dropWhile_append_of_cons h]; simp

theorem dropWhile_idem {p : Char → Bool} (l : Str) :
    (l.dropWhile p).dropWhile p = l.dropWhile p := by
  induction l with
  | nil => simp
  | cons x t ih =>
    by_cases hx : p x
    · simpa [List.dropWhile_cons, hx] using ih
    · simp [List.dropWhile_cons, hx]

theorem trimLeft_append_cons {c : Char} (hc : isSpaceChar c = false) (a b : Str) :
    trimLeft (a ++ c :: b) = trimLeft a ++ c :: b :=
  dropWhile_append_cons hc a b

theorem trimRight_append_cons {c : Char} (hc : isSpaceChar c = false) (a b : Str) :
    trimRight (a ++ c :: b) = a ++ c :: trimRight b := by
  unfold trimRight
  rw [show (a ++ c :: b).reverse = b.reverse ++ c :: a.reverse by simp,
    dropWhile_append_cons hc]
  simp [trimRight]

theorem strTrim_append_cons {c : Char} (hc : isSpaceChar c = false) (a b : Str) :
    strTrim (a ++ c :: b) = trimLeft a ++ c :: trimRight b := by
  rw [strTrim, trimLeft_append_cons hc, trimRight_append_cons hc]

theorem trimRight_idem (l : Str) : trimRight (trimRight l) = trimRight l := by
  unfold trimRight
  rw [List.reverse_reverse, dropWhile_idem]

theorem trimLeft_idem (l : Str) : trimLeft (trimLeft l) = trimLeft l :=
  dropWhile_idem l

theorem trimRight_nil_iff {l : Str} :
    trimRight l = [] ↔ ∀ c ∈ l, isSpaceChar c := by
  unfold trimRight
  rw [List.reverse_eq_nil_iff, List.dropWhile_eq_nil_iff]
  constructor
  · intro h c hc; exact h c (by simpa using hc)
  · intro h c hc; exact h c (by simpa using hc)

theorem trimLeft_nil_of_trimRight_nil {l : Str} (h : trimRight l = []) :
    trimLeft l = [] := by
  rw [trimLeft, List.dropWhile_eq_nil_iff]
  intro c hc
  exact (trimRight_nil_iff.1 h) c hc

theorem trimRight_cons (c : Char) (t : Str) :
    trimRight (c :: t) =
      if trimRight t = [] then (if isSpaceChar c then [] else [c])
      else c :: trimRight t := by
  have hrev : (c :: t).reverse = t.reverse ++ [c] := by simp
  by_cases h : trimRight t = []
  · have h0 : t.reverse.dropWhile isSpaceChar = [] := by
      have := congrArg List.reverse h
      simpa [trimRight] using this
    rw [trimRight, hrev, dropWhile_append_of_nil h0]
    by_cases hc : isSpaceChar c <;> simp [List.dropWhile_cons, hc, h]
  · cases h0 : t.reverse.dropWhile isSpaceChar with
    | nil => exact absurd (by simp [trimRight, h0]) h
    | cons z zs =>
      rw [trimRight, hrev, dropWhile_append_of_cons h0]
      simp [trimRight, h0, h]

theorem trim_comm (l : Str) : trimLeft (trimRight l) = trimRight (trimLeft l) := by
  induction l with
  | nil => rfl
  | cons c t ih =>
    by_cases hc : isSpaceChar c
    · have hl : trimLeft (c :: t) = trimLeft t := by
        simp [trimLeft, List.dropWhile_cons, hc]
      rw [hl, trimRight_cons, ← ih]
      by_cases h : trimRight t = []
      · simp [h, hc, trimLeft]
      · simp only [h, if_false]
        have : trimLeft (c :: trimRight t) = trimLeft (trimRight t) := by
          simp [trimLeft, List.dropWhile_cons, hc]
        rw [this]
    · have hl : trimLeft (c :: t) = c :: t := by
        simp [trimLeft, List.dropWhile_cons, hc]
      rw [hl, trimRight_cons]
      by_cases h : trimRight t = [] <;>
        simp [h, hc, trimLeft, List.dropWhile_cons]

theorem strTrim_trimLeft (l : Str) : strTrim (trimLeft l) = strTrim l := by
  rw [strTrim, trimLeft_idem]; rfl

theorem strTrim_trimRight (l : Str) : strTrim (trimRight l) = strTrim l := by
  rw [strTrim, trim_comm, trimRight_idem]; rfl

theorem mem_of_mem_trimLeft {c : Char} {l : Str} (h : c ∈ trimLeft l) : c ∈ l :=
  (List.dropWhile_sublist (p := isSpaceChar) (l := l)).mem h

theorem mem_of_mem_trimRight {c : Char} {l : Str} (h : c ∈ trimRight l) : c ∈ l := by
  rw [trimRight, List.mem_reverse] at h
  have := (List.dropWhile_sublist (p := isSpaceChar) (l := l.reverse)).mem h
  simpa using this

/-! ### Splitting on "/" -/

theorem splitOnChar_ne_nil (c : Char) (s : Str) : splitOnChar c s ≠ [] := by
  cases s with
  | nil => simp [splitOnChar]
  | cons x t =>
    rw [splitOnChar]
    by_cases hx : x = c
    · simp [hx]
    · simp only [hx, if_false]
      cases splitOnChar c t <;> simp

theorem splitOnChar_of_no_sep {c : Char} {s : Str} (h : c ∉ s) :
    splitOnChar c s = [s] := by
  induction s with
  | nil => rfl
  | cons x t ih =>
    have hx : ¬(x = c) := fun he => h (he ▸ List.mem_cons_self x t)
    have ht : c ∉ t := fun hm => h (List.mem_cons_of_mem x hm)
    rw [splitOnChar]
    simp only [hx, if_false, ih ht]

theorem splitOnChar_append_cons {c : Char} {x : Str} (hx : c ∉ x) (y : Str) :
    splitOnChar c (x ++ c :: y) = x :: splitOnChar c y := by
  induction x with
  | nil => simp [splitOnChar]
  | cons a t ih =>
    have ha : ¬(a = c) := fun he => hx (he ▸ List.mem_cons_self a t)
    have ht : c ∉ t := fun hm => hx (List.mem_cons_of_mem a hm)
    rw [List.cons_append, splitOnChar]
    simp only [ha, if_false, ih ht]

end DockWatch

namespace DockWatch

theorem strTrim_idem (x : Str) : strTrim (strTrim x) = strTrim x := by
  show strTrim (trimRight (trimLeft x)) = strTrim x
  rw [strTrim_trimRight, strTrim_trimLeft]

theorem parseSize_of_trim_nil {x : Str} (h : strTrim x = []) : parseSize x = 0 := by
  simp [parseSize, h]

theorem if_trim_parseSize (x : Str) :
    (if strTrim x = [] then (0 : ℚ) else parseSize (strTrim x)) =
      parseSize (strTrim x) := by
  by_cases h : strTrim x = []
  · rw [if_pos h, parseSize_of_trim_nil (by rw [strTrim_idem, h])]
  · rw [if_neg h]

/-- Splitting behaviour of `parseNetIO` on a two-sided "a / b" value:
the total is the sum of the `parseSize` of the two trimmed sides. -/
theorem parseNetIO_split (a b : Str) (ha : '/' ∉ a) (hb : '/' ∉ b) :
    parseNetIO (a ++ '/' :: b) =
      parseSize (strTrim a) + parseSize (strTrim b) := by
  have hslash : isSpaceChar '/' = false := by decide
  have hs : strTrim (a ++ '/' :: b) = trimLeft a ++ '/' :: trimRight b :=
    strTrim_append_cons hslash a b
  have hmem : '/' ∈ trimLeft a ++ '/' :: trimRight b :=
    List.mem_append.mpr (Or.inr (List.mem_cons_self _ _))
  have hcond : ¬(trimLeft a ++ '/' :: trimRight b = [] ∨
      trimLeft a ++ '/' :: trimRight b = str "─") := by
    rintro (h | h) <;> rw [h] at hmem
    · simp at hmem
    · revert hmem; decide
  have h1 : '/' ∉ trimLeft a := fun h => ha (mem_of_mem_trimLeft h)
  have h2 : '/' ∉ trimRight b := fun h => hb (mem_of_mem_trimRight h)
  simp only [ parseNetIO, hs, if_neg hcond, splitOnChar_append_cons h1,
    splitOnChar_of_no_sep h2, List.map_cons, List.map_nil, List.sum_cons,
    List.sum_nil, add_zero]
  rw [strTrim_trimLeft, strTrim_trimRight, if_trim_parseSize, if_trim_parseSize]

end DockWatch

namespace DockWatch

theorem evalSize_1_2kB : parseSize (str "1.2kB") = 1200 := by
  have h1 : strTrim (str "1.2kB") = ['1', '.', '2', 'k', 'B'] := by decide
  have h2 : (['1', '.', '2', 'k', 'B'] : Str).filter (fun c => ¬(c = ',')) =
      ['1', '.', '2', 'k', 'B'] := by decide
  have h3 : (['1', '.', '2', 'k', 'B'] : Str).takeWhile isNumChar = ['1', '.', '2'] := by decide
  have h4 : (['1', '.', '2', 'k', 'B'] : Str).dropWhile isNumChar = ['k', 'B'] := by decide
  have h5 : splitOnChar '.' ['1', '.', '2'] = [['1'], ['2']] := by decide
  have h6 : digitsVal ['1'] = 1 := by decide
  have h7 : digitsVal ['2'] = 2 := by decide
  simp +decide [parseSize, parseSizeCore, parseDecQ, h1, h2, h3, h4, h5, h6, h7]
  norm_num

theorem evalSize_850B : parseSize (str "850B") = 850 := by
  have h1 : strTrim (str "850B") = ['8', '5', '0', 'B'] := by decide
  have h2 : (['8', '5', '0', 'B'] : Str).filter (fun c => ¬(c = ',')) =
      ['8', '5', '0', 'B'] := by decide
  have h3 : (['8', '5', '0', 'B'] : Str).takeWhile isNumChar = ['8', '5', '0'] := by decide
  have h4 : (['8', '5', '0', 'B'] : Str).dropWhile isNumChar = ['B'] := by decide
  have h5 : splitOnChar '.' ['8', '5', '0'] = [['8', '5', '0']] := by decide
  have h6 : digitsVal ['8', '5', '0'] = 850 := by decide
  simp +decide [parseSize, parseSizeCore, parseDecQ, h1, h2, h3, h4, h5, h6]

end DockWatch

namespace DockWatch

theorem evalSize_1kB : parseSize (str "1kB") = 1000 := by
  have h1 : strTrim (str "1kB") = ['1', 'k', 'B'] := by decide
  have h2 : (['1', 'k', 'B'] : Str).filter (fun c => ¬(c = ',')) = ['1', 'k', 'B'] := by decide
  have h3 : (['1', 'k', 'B'] : Str).takeWhile isNumChar = ['1'] := by decide
  have h4 : (['1', 'k', 'B'] : Str).dropWhile isNumChar = ['k', 'B'] := by decide
  have h5 : splitOnChar '.' ['1'] = [['1']] := by decide
  have h6 : digitsVal ['1'] = 1 := by decide
  simp +decide [parseSize, parseSizeCore, parseDecQ, h1, h2, h3, h4, h5, h6]

theorem evalSize_1KiB : parseSize (str "1KiB") = 1000 := by
  have h1 : strTrim (str "1KiB") = ['1', 'K', 'i', 'B'] := by decide
  have h2 : (['1', 'K', 'i', 'B'] : Str).filter (fun c => ¬(c = ',')) = ['1', 'K', 'i', 'B'] := by decide
  have h3 : (['1', 'K', 'i', 'B'] : Str).takeWhile isNumChar = ['1'] := by decide
  have h4 : (['1', 'K', 'i', 'B'] : Str).dropWhile isNumChar = ['K', 'i', 'B'] := by decide
  have h5 : splitOnChar '.' ['1'] = [['1']] := by decide
  have h6 : digitsVal ['1'] = 1 := by decide
  simp +decide [parseSize, parseSizeCore, parseDecQ, h1, h2, h3, h4, h5, h6]

theorem evalSize_2MB : parseSize (str "2MB") = 2000000 := by
  have h1 : strTrim (str "2MB") = ['2', 'M', 'B'] := by decide
  have h2 : (['2', 'M', 'B'] : Str).filter (fun c => ¬(c = ',')) = ['2', 'M', 'B'] := by decide
  have h3 : (['2', 'M', 'B'] : Str).takeWhile isNumChar = ['2'] := by decide
  have h4 : (['2', 'M', 'B'] : Str).dropWhile isNumChar = ['M', 'B'] := by decide
  have h5 : splitOnChar '.' ['2'] = [['2']] := by decide
  have h6 : digitsVal ['2'] = 2 := by decide
  simp +decide [parseSize, parseSizeCore, parseDecQ, h1, h2, h3, h4, h5, h6]
  norm_num

theorem evalSize_2MiB : parseSize (str "2MiB") = 2000000 := by
  have h1 : strTrim (str "2MiB") = ['2', 'M', 'i', 'B'] := by decide
  have h2 : (['2', 'M', 'i', 'B'] : Str).filter (fun c => ¬(c = ',')) = ['2', 'M', 'i', 'B'] := by decide
  have h3 : (['2', 'M', 'i', 'B'] : Str).takeWhile isNumChar = ['2'] := by decide
  have h4 : (['2', 'M', 'i', 'B'] : Str).dropWhile isNumChar = ['M', 'i', 'B'] := by decide
  have h5 : splitOnChar '.' ['2'] = [['2']] := by decide
  have h6 : digitsVal ['2'] = 2 := by decide
  simp +decide [parseSize, parseSizeCore, parseDecQ, h1, h2, h3, h4, h5, h6]
  norm_num

theorem evalSize_3GB : parseSize (str "3GB") = 3000000000 := by
  have h1 : strTrim (str "3GB") = ['3', 'G', 'B'] := by decide
  have h2 : (['3', 'G', 'B'] : Str).filter (fun c => ¬(c = ',')) = ['3', 'G', 'B'] := by decide
  have h3 : (['3', 'G', 'B'] : Str).takeWhile isNumChar = ['3'] := by decide
  have h4 : (['3', 'G', 'B'] : Str).dropWhile isNumChar = ['G', 'B'] := by decide
  have h5 : splitOnChar '.' ['3'] = [['3']] := by decide
  have h6 : digitsVal ['3'] = 3 := by decide
  simp +decide [parseSize, parseSizeCore, parseDecQ, h1, h2, h3, h4, h5, h6]
  norm_num

theorem evalSize_3GiB : parseSize (str "3GiB") = 3000000000 := by
  have h1 : strTrim (str "3GiB") = ['3', 'G', 'i', 'B'] := by decide
  have h2 : (['3', 'G', 'i', 'B'] : Str).filter (fun c => ¬(c = ',')) = ['3', 'G', 'i', 'B'] := by decide
  have h3 : (['3', 'G', 'i', 'B'] : Str).takeWhile isNumChar = ['3'] := by decide
  have h4 : (['3', 'G', 'i', 'B'] : Str).dropWhile isNumChar = ['G', 'i', 'B'] := by decide
  have h5 : splitOnChar '.' ['3'] = [['3']] := by decide
  have h6 : digitsVal ['3'] = 3 := by decide
  simp +decide [parseSize, parseSizeCore, parseDecQ, h1, h2, h3, h4, h5, h6]
  norm_num

theorem evalSize_garbage : parseSize (str "garbage") = 0 := by
  have h1 : strTrim (str "garbage") = ['g', 'a', 'r', 'b', 'a', 'g', 'e'] := by decide
  have h2 : (['g', 'a', 'r', 'b', 'a', 'g', 'e'] : Str).filter (fun c => ¬(c = ',')) =
      ['g', 'a', 'r', 'b', 'a', 'g', 'e'] := by decide
  have h3 : (['g', 'a', 'r', 'b', 'a', 'g', 'e'] : Str).takeWhile isNumChar = [] := by decide
  simp +decide [parseSize, parseSizeCore, h1, h2, h3]

end DockWatch

/-- C5: a byte-size string of the form "<value> / <value>" parses to the sum
of its two sides, each side going through the unit-suffix table
(b, kB/KiB, MB/MiB, GB/GiB, all at decimal-1000 scale) with unparseable
input defaulting to zero; in particular "1.2kB / 850B" parses to 2050. -/
theorem C5_parseNetIO_sums_sides :
    (∀ a b : DockWatch.Str, '/' ∉ a → '/' ∉ b →
      DockWatch.parseNetIO (a ++ '/' :: b) =
        DockWatch.parseSize (DockWatch.strTrim a) +
          DockWatch.parseSize (DockWatch.strTrim b)) ∧
    DockWatch.parseNetIO (DockWatch.str "1.2kB / 850B") = 2050 ∧
    DockWatch.parseSize (DockWatch.str "1kB") = 1000 ∧
    DockWatch.parseSize (DockWatch.str "1KiB") = 1000 ∧
    DockWatch.parseSize (DockWatch.str "2MB") = 2000000 ∧
    DockWatch.parseSize (DockWatch.str "2MiB") = 2000000 ∧
    DockWatch.parseSize (DockWatch.str "3GB") = 3000000000 ∧
    DockWatch.parseSize (DockWatch.str "3GiB") = 3000000000 ∧
    DockWatch.parseSize (DockWatch.str "850B") = 850 ∧
    DockWatch.parseSize (DockWatch.str "garbage") = 0 := by
  refine ⟨fun a b ha hb => DockWatch.parseNetIO_split a b ha hb, ?_,
    DockWatch.evalSize_1kB, DockWatch.evalSize_1KiB, DockWatch.evalSize_2MB,
    DockWatch.evalSize_2MiB, DockWatch.evalSize_3GB, DockWatch.evalSize_3GiB,
    DockWatch.evalSize_850B, DockWatch.evalSize_garbage⟩
  have hsplit : DockWatch.str "1.2kB / 850B" =
      DockWatch.str "1.2kB " ++ '/' :: DockWatch.str " 850B" := by decide
  rw [hsplit, DockWatch.parseNetIO_split _ _ (by decide) (by decide)]
  have e1 : DockWatch.strTrim (DockWatch.str "1.2kB ") = DockWatch.str "1.2kB" := by decide
  have e2 : DockWatch.strTrim (DockWatch.str " 850B") = DockWatch.str "850B" := by decide
  rw [e1, e2, DockWatch.evalSize_1_2kB, DockWatch.evalSize_850B]
  norm_num

/-- Witness for C5: the summing law applied at the concrete sides
"1.2kB " and " 850B", whose hypotheses hold by computation. -/
theorem C5_parseNetIO_sums_sides_witness :
    ('/' ∉ DockWatch.str "1.2kB ") ∧ ('/' ∉ DockWatch.str " 850B") ∧
    DockWatch.parseNetIO (DockWatch.str "1.2kB " ++ '/' :: DockWatch.str " 850B") =
      DockWatch.parseSize (DockWatch.strTrim (DockWatch.str "1.2kB ")) +
        DockWatch.parseSize (DockWatch.strTrim (DockWatch.str " 850B")) :=
  ⟨by decide, by decide,
    C5_parseNetIO_sums_sides.1 _ _ (by decide) (by decide)⟩

namespace DockWatch

theorem calculateMaxContainers_pos (m : Model) : 0 < calculateMaxContainers m := by
  unfold calculateMaxContainers
  dsimp only
  split <;> split <;> omega

theorem pageAdjust {c p pg : ℕ} :
    (if c ≥ ((if c < pg * p then c / p else pg) + 1) * p then c / p
     else (if c < pg * p then c / p else pg)) = c / p := by
  by_cases h1 : c < pg * p
  · simp only [if_pos h1]
    by_cases h2 : c ≥ (c / p + 1) * p <;> simp [h2]
  · simp only [if_neg h1]
    by_cases h2 : c ≥ (pg + 1) * p
    · simp [h2]
    · simp only [if_neg h2]
      exact (Nat.div_eq_of_lt_le (Nat.le_of_not_lt h1) (Nat.lt_of_not_le h2)).symm

end DockWatch

/-- C2: after `updatePagination` runs, the page size `p` is positive and the
page equals `⌊cursor / p⌋`, equivalently `page*p ≤ cursor < page*p + p`; in
particular this holds whenever the rendered collection is non-empty. -/
theorem C2_pagination_invariant (m : DockWatch.Model) :
    0 < (DockWatch.updatePagination m).maxContainersPerPage ∧
    (DockWatch.updatePagination m).page =
      (DockWatch.updatePagination m).cursor /
        (DockWatch.updatePagination m).maxContainersPerPage ∧
    (DockWatch.updatePagination m).page *
        (DockWatch.updatePagination m).maxContainersPerPage ≤
      (DockWatch.updatePagination m).cursor ∧
    (DockWatch.updatePagination m).cursor <
      (DockWatch.updatePagination m).page *
          (DockWatch.updatePagination m).maxContainersPerPage +
        (DockWatch.updatePagination m).maxContainersPerPage := by
  have hcalc := DockWatch.calculateMaxContainers_pos m
  have main : 0 < (DockWatch.updatePagination m).maxContainersPerPage ∧
      (DockWatch.updatePagination m).page =
        (DockWatch.updatePagination m).cursor /
          (DockWatch.updatePagination m).maxContainersPerPage := by
    unfold DockWatch.updatePagination
    dsimp only
    rw [if_neg (by omega : ¬ DockWatch.calculateMaxContainers m < 1)]
    by_cases hlen : m.containers.length = 0
    · rw [if_pos hlen]
      dsimp only
      exact ⟨hcalc, (Nat.zero_div _).symm⟩
    · rw [if_neg hlen]
      dsimp only
      exact ⟨hcalc, DockWatch.pageAdjust⟩
  obtain ⟨hper, hpage⟩ := main
  refine ⟨hper, hpage, ?_, ?_⟩
  · rw [hpage]; exact Nat.div_mul_le_self _ _
  · rw [hpage]
    have hmod := Nat.div_add_mod (DockWatch.updatePagination m).cursor
      (DockWatch.updatePagination m).maxContainersPerPage
    have hlt := Nat.mod_lt (DockWatch.updatePagination m).cursor hper
    have hcomm : (DockWatch.updatePagination m).cursor /
          (DockWatch.updatePagination m).maxContainersPerPage *
          (DockWatch.updatePagination m).maxContainersPerPage =
        (DockWatch.updatePagination m).maxContainersPerPage *
          ((DockWatch.updatePagination m).cursor /
            (DockWatch.updatePagination m).maxContainersPerPage) := Nat.mul_comm _ _
    omega

namespace DockWatch

section SortLemmas

variable {α : Type} {p : α → α → Bool}

theorem mem_bubbleRev {x z : α} {l : List α}
    (h : z ∈ bubbleRev p x l) : z = x ∨ z ∈ l := by
  induction l with
  | nil => simpa [bubbleRev] using h
  | cons y ys ih =>
    rw [bubbleRev] at h
    by_cases hxy : p x y
    · rw [if_pos hxy] at h
      rcases List.mem_cons.1 h with h | h
      · exact Or.inr (h ▸ List.mem_cons_self _ _)
      · rcases ih h with h' | h'
        · exact Or.inl h'
        · exact Or.inr (List.mem_cons_of_mem _ h')
    · rw [if_neg hxy] at h
      rcases List.mem_cons.1 h with h | h
      · exact Or.inl h
      · exact Or.inr h

theorem bubbleRev_perm (x : α) (l : List α) :
    (bubbleRev p x l).Perm (x :: l) := by
  induction l with
  | nil => simp [bubbleRev]
  | cons y ys ih =>
    rw [bubbleRev]
    by_cases hxy : p x y
    · rw [if_pos hxy]
      exact (ih.cons y).trans (List.Perm.swap x y ys)
    · rw [if_neg hxy]

theorem foldl_bubbleRev_perm (l : List α) :
    ∀ acc : List α,
      (l.foldl (fun a x => bubbleRev p x a) acc).Perm (l ++ acc) := by
  induction l with
  | nil => intro acc; simp
  | cons x xs ih =>
    intro acc
    rw [List.foldl_cons]
    refine (ih (bubbleRev p x acc)).trans ?_
    exact (List.Perm.append_left xs (bubbleRev_perm x acc)).trans
      List.perm_middle

theorem sortGo_perm (l : List α) : (sortGo p l).Perm l := by
  unfold sortGo
  refine (List.reverse_perm _).trans ?_
  simpa using foldl_bubbleRev_perm l []

theorem pairwiseF_bubbleRev (ha : Asymm p) (hc : Cotrans p) {x : α}
    {l : List α} (hs : List.Pairwise (fun a b => p a b = false) l) :
    List.Pairwise (fun a b => p a b = false) (bubbleRev p x l) := by
  induction l with
  | nil => simp [bubbleRev]
  | cons y ys ih =>
    obtain ⟨hy, hys⟩ := List.pairwise_cons.1 hs
    rw [bubbleRev]
    by_cases hxy : p x y
    · rw [if_pos hxy]
      refine List.pairwise_cons.2 ⟨?_, ih hys⟩
      intro z hz
      rcases mem_bubbleRev hz with rfl | hz'
      · exact ha _ y hxy
      · exact hy z hz'
    · rw [if_neg hxy]
      refine List.pairwise_cons.2 ⟨?_, hs⟩
      intro z hz
      rcases List.mem_cons.1 hz with rfl | hz'
      · cases h' : p x z
        · rfl
        · exact absurd h' (by simp [hxy])
      · cases h' : p x z
        · rfl
        · rcases hc x z y h' with h2 | h2
          · exact absurd h2 (by simp [hxy])
          · exact absurd h2 (by simp [hy z hz'])

theorem pairwiseF_foldl_bubbleRev (ha : Asymm p) (hc : Cotrans p)
    (l : List α) :
    ∀ acc : List α, List.Pairwise (fun a b => p a b = false) acc →
      List.Pairwise (fun a b => p a b = false)
        (l.foldl (fun a x => bubbleRev p x a) acc) := by
  induction l with
  | nil => intro acc hacc; simpa using hacc
  | cons x xs ih =>
    intro acc hacc
    rw [List.foldl_cons]
    exact ih _ (pairwiseF_bubbleRev ha hc hacc)

theorem sortedA_sortGo (ha : Asymm p) (hc : Cotrans p) (l : List α) :
    SortedA p (sortGo p l) := by
  unfold sortGo SortedA
  rw [List.pairwise_reverse]
  exact pairwiseF_foldl_bubbleRev ha hc l [] List.Pairwise.nil

theorem bubbleRev_all {x : α} {l : List α} (h : ∀ y ∈ l, p x y = true) :
    bubbleRev p x l = l ++ [x] := by
  induction l with
  | nil => simp [bubbleRev]
  | cons y ys ih =>
    rw [bubbleRev, if_pos (h y (List.mem_cons_self y ys)),
      ih (fun z hz => h z (List.mem_cons_of_mem y hz)), List.cons_append]

theorem foldl_bubbleRev_fixed (l : List α) :
    ∀ acc : List α, (∀ x ∈ l, ∀ y ∈ acc, p x y = true) →
      List.Pairwise (fun a b => p b a = true) l →
      l.foldl (fun a x => bubbleRev p x a) acc = acc ++ l := by
  induction l with
  | nil => intro acc _ _; simp
  | cons x xs ih =>
    intro acc hcross hpw
    have hpc := List.pairwise_cons.1 hpw
    have hcross' : ∀ z ∈ xs, ∀ y ∈ acc ++ [x], p z y = true := by
      intro z hz y hy
      rcases List.mem_append.1 hy with hy' | hy'
      · exact hcross z (List.mem_cons_of_mem x hz) y hy'
      · rw [List.mem_singleton.1 hy']
        exact hpc.1 z hz
    rw [List.foldl_cons, bubbleRev_all (hcross x (List.mem_cons_self x xs)),
      ih (acc ++ [x]) hcross' hpc.2, List.append_assoc, List.singleton_append]

/-- The central toggle fact: Go insertion sort under the negated comparator
leaves an ascending-sorted list alone position by position in the reversed
working representation, hence returns exactly its reverse — ties or not.
(Each element entering on the right finds no left neighbour it is not
below-or-tied with, so the negated comparator carries it all the way to the
front.) -/
theorem sortGo_neg_of_sortedA {l : List α} (hs : SortedA p l) :
    sortGo (fun a b => !(p a b)) l = l.reverse := by
  unfold sortGo
  rw [foldl_bubbleRev_fixed l [] (fun x _ y hy => absurd hy (List.not_mem_nil y))
      (hs.imp (fun h => by rw [h]; rfl)),
    List.nil_append]

end SortLemmas

theorem lessContainer_asymm (col : sortColumn) : Asymm (lessContainer col) := by
  intro a b h
  cases col <;>
    simp only [lessContainer, decide_eq_true_eq, decide_eq_false_iff_not] at h ⊢ <;>
    exact lt_asymm h

theorem lessContainer_cotrans (col : sortColumn) : Cotrans (lessContainer col) := by
  intro a b c h
  cases col <;>
    simp only [lessContainer, decide_eq_true_eq] at h ⊢ <;>
    exact (lt_or_le _ _).imp id (fun hle => lt_of_le_of_lt hle h)

end DockWatch

namespace DockWatch

theorem sortContainers_proj (m : Model) :
    (sortContainers m).containers = sortGo (goCmp m.sortAsc m.sortBy) m.containers ∧
    (sortContainers m).sortAsc = m.sortAsc ∧
    (sortContainers m).sortBy = m.sortBy ∧
    (sortContainers m).columnMode = m.columnMode ∧
    (sortContainers m).selectedColumn = m.selectedColumn := by
  unfold sortContainers
  dsimp only
  split
  · split
    · exact ⟨rfl, rfl, rfl, rfl, rfl⟩
    · exact ⟨rfl, rfl, rfl, rfl, rfl⟩
  · exact ⟨rfl, rfl, rfl, rfl, rfl⟩

theorem updateEnterColumn_proj (m : Model) (hcm : m.columnMode = true) :
    (updateEnterColumn m).containers =
      sortGo (goCmp (if m.sortBy = colOfIndex m.selectedColumn then !m.sortAsc else true)
          (colOfIndex m.selectedColumn)) m.containers ∧
    (updateEnterColumn m).sortBy = colOfIndex m.selectedColumn ∧
    (updateEnterColumn m).sortAsc =
      (if m.sortBy = colOfIndex m.selectedColumn then !m.sortAsc else true) ∧
    (updateEnterColumn m).columnMode = true ∧
    (updateEnterColumn m).selectedColumn = m.selectedColumn := by
  unfold updateEnterColumn
  rw [if_pos hcm]
  dsimp only
  by_cases hsb : m.sortBy = colOfIndex m.selectedColumn
  · rw [if_pos hsb]
    obtain ⟨h1, h2, h3, h4, h5⟩ := sortContainers_proj
      { m with sortAsc := !m.sortAsc }
    refine ⟨?_, ?_, ?_, ?_, ?_⟩
    · rw [if_pos hsb]
      exact h1.trans (by rw [show ({ m with sortAsc := !m.sortAsc } : Model).sortBy = colOfIndex m.selectedColumn from hsb])
    · exact h3.trans hsb
    · rw [if_pos hsb]; exact h2
    · exact h4.trans hcm
    · exact h5
  · rw [if_neg hsb]
    obtain ⟨h1, h2, h3, h4, h5⟩ := sortContainers_proj
      { m with sortBy := colOfIndex m.selectedColumn, sortAsc := true }
    refine ⟨?_, ?_, ?_, ?_, ?_⟩
    · rw [if_neg hsb]; exact h1
    · exact h3
    · rw [if_neg hsb]; exact h2
    · exact h4.trans hcm
    · exact h5

theorem goCmp_true (col : sortColumn) : goCmp true col = lessContainer col := by
  funext a b
  simp [goCmp]

theorem goCmp_false (col : sortColumn) :
    goCmp false col = fun a b => !(lessContainer col a b) := by
  funext a b
  simp [goCmp]

end DockWatch

/-- Corrected C6: unless the first press is a toggle of the already-active
column away from ascending order, selecting the column under the cursor
twice in a row yields the exact reverse of the single-selection order —
with no hypothesis on ties — and flips the direction from ascending to
descending; selecting a column different from the active one resets the
direction to ascending on it. -/
theorem C6_sort_toggle_amended (m : DockWatch.Model)
    (hcm : m.columnMode = true)
    (hfresh : m.sortBy = DockWatch.colOfIndex m.selectedColumn →
      m.sortAsc = false) :
    ((DockWatch.updateEnterColumn (DockWatch.updateEnterColumn m)).containers =
        ((DockWatch.updateEnterColumn m).containers).reverse ∧
      (DockWatch.updateEnterColumn m).sortAsc = true ∧
      (DockWatch.updateEnterColumn (DockWatch.updateEnterColumn m)).sortAsc =
        !(DockWatch.updateEnterColumn m).sortAsc) ∧
    (m.sortBy ≠ DockWatch.colOfIndex m.selectedColumn →
      (DockWatch.updateEnterColumn m).sortBy =
          DockWatch.colOfIndex m.selectedColumn ∧
      (DockWatch.updateEnterColumn m).sortAsc = true) := by
  have ha := DockWatch.lessContainer_asymm (DockWatch.colOfIndex m.selectedColumn)
  have hc := DockWatch.lessContainer_cotrans (DockWatch.colOfIndex m.selectedColumn)
  obtain ⟨p1c, p1b, p1a, p1cm, p1sc⟩ := DockWatch.updateEnterColumn_proj m hcm
  obtain ⟨p2c, p2b, p2a, p2cm, p2sc⟩ :=
    DockWatch.updateEnterColumn_proj (DockWatch.updateEnterColumn m) p1cm
  rw [p1sc] at p2c p2b p2a
  rw [if_pos p1b] at p2c p2a
  have hasc1 : (if m.sortBy = DockWatch.colOfIndex m.selectedColumn
      then !m.sortAsc else true) = true := by
    by_cases hsb : m.sortBy = DockWatch.colOfIndex m.selectedColumn
    · rw [if_pos hsb, hfresh hsb]; rfl
    · rw [if_neg hsb]
  rw [hasc1] at p1c p1a
  refine ⟨⟨?_, p1a, p2a⟩, ?_⟩
  · rw [p2c, p1a, Bool.not_true, p1c, DockWatch.goCmp_true,
      DockWatch.goCmp_false]
    exact DockWatch.sortGo_neg_of_sortedA
      (DockWatch.sortedA_sortGo ha hc m.containers)
  · intro hne
    exact ⟨p1b, p1a⟩

/-- Counterexample to C6 as stated: with two status-tied containers and the
Status column already active in ascending order, pressing the column twice
does not yield the reverse of the single-press order.  The first press
toggles to descending and the negated comparator swaps the tied pair; the
second press re-sorts ascending, and the insertion sort — stable on ties —
leaves the pair where it stands instead of reversing it again. -/
theorem C6_counterexample :
    ¬((DockWatch.updateEnterColumn
          (DockWatch.updateEnterColumn DockWatch.tieToggleModel)).containers =
      ((DockWatch.updateEnterColumn
          DockWatch.tieToggleModel).containers).reverse) := by
  decide

/-- Witness for the corrected C6 at a concrete two-container collection
whose status keys tie: a fresh double selection of the Status column still
reverses the order. -/
theorem C6_sort_toggle_amended_witness :
    (DockWatch.tieModel.columnMode = true) ∧
    (DockWatch.tieModel.sortBy =
        DockWatch.colOfIndex DockWatch.tieModel.selectedColumn →
      DockWatch.tieModel.sortAsc = false) ∧
    (((DockWatch.updateEnterColumn
          (DockWatch.updateEnterColumn DockWatch.tieModel)).containers =
        ((DockWatch.updateEnterColumn DockWatch.tieModel).containers).reverse ∧
      (DockWatch.updateEnterColumn DockWatch.tieModel).sortAsc = true ∧
      (DockWatch.updateEnterColumn
          (DockWatch.updateEnterColumn DockWatch.tieModel)).sortAsc =
        !(DockWatch.updateEnterColumn DockWatch.tieModel).sortAsc) ∧
     (DockWatch.tieModel.sortBy ≠
        DockWatch.colOfIndex DockWatch.tieModel.selectedColumn →
      (DockWatch.updateEnterColumn DockWatch.tieModel).sortBy =
          DockWatch.colOfIndex DockWatch.tieModel.selectedColumn ∧
      (DockWatch.updateEnterColumn DockWatch.tieModel).sortAsc = true)) :=
  ⟨by decide, by decide,
    C6_sort_toggle_amended DockWatch.tieModel (by decide) (by decide)⟩

namespace DockWatch

theorem lexLess_asymm : Asymm (fun a b : Str => decide (a < b)) := by
  intro a b h
  simp only [decide_eq_true_eq, decide_eq_false_iff_not] at h ⊢
  exact lt_asymm h

theorem lexLess_cotrans : Cotrans (fun a b : Str => decide (a < b)) := by
  intro a b c h
  simp only [decide_eq_true_eq] at h ⊢
  exact (lt_or_le _ _).imp id (fun hle => lt_of_le_of_lt hle h)

theorem sortStrings_sorted (l : List Str) :
    List.Pairwise (fun a b : Str => a ≤ b) (sortStrings l) := by
  have h := sortedA_sortGo lexLess_asymm lexLess_cotrans l
  refine h.imp ?_
  intro a b hab
  simp only [decide_eq_false_iff_not] at hab
  exact le_of_not_lt hab

theorem sortStrings_perm (l : List Str) : (sortStrings l).Perm l :=
  sortGo_perm l

theorem standaloneRows_ne_nil_iff (m : Model) :
    standaloneRows m ≠ [] ↔
      ∃ c ∈ m.containers, ∀ np ∈ m.projects, ∀ d ∈ np.2.Containers,
        d.ID ≠ c.ID := by
  have hmem : ∀ c : Container, (¬(c.ID ∈ composeIds m)) ↔
      ∀ np ∈ m.projects, ∀ d ∈ np.2.Containers, d.ID ≠ c.ID := by
    intro c
    constructor
    · intro h np hnp d hd he
      exact h (List.mem_flatMap.2 ⟨np, hnp, List.mem_map.2 ⟨d, hd, he⟩⟩)
    · intro h hin
      obtain ⟨np, hnp, hm⟩ := List.mem_flatMap.1 hin
      obtain ⟨d, hd, he⟩ := List.mem_map.1 hm
      exact h np hnp d hd he
  have hfilter : standaloneContainers m ≠ [] ↔
      ∃ c ∈ m.containers, ¬(c.ID ∈ composeIds m) := by
    unfold standaloneContainers
    rw [Ne, List.filter_eq_nil_iff]
    push_neg
    constructor
    · rintro ⟨c, hc, hp⟩
      refine ⟨c, hc, ?_⟩
      simpa using hp
    · rintro ⟨c, hc, hp⟩
      refine ⟨c, hc, ?_⟩
      simpa using hp
  constructor
  · intro h
    have hne : standaloneContainers m ≠ [] := by
      intro hnil
      apply h
      simp [standaloneRows, hnil]
    obtain ⟨c, hc, hp⟩ := hfilter.1 hne
    exact ⟨c, hc, (hmem c).1 hp⟩
  · rintro ⟨c, hc, hp⟩
    have hne : standaloneContainers m ≠ [] :=
      hfilter.2 ⟨c, hc, (hmem c).2 hp⟩
    have hpos : 0 < (standaloneContainers m).length :=
      List.length_pos.2 hne
    simp [standaloneRows, hpos]

end DockWatch

/-- C3: the flattened tree is the concatenation of the project blocks, taken
in lexicographically sorted name order (the sorted name sequence being a
permutation of the project-map keys), where a named project's block is its
header row carrying the running/total counts followed by its member rows
exactly when it is expanded; the trailing synthetic "Standalone Containers"
block is present iff at least one container belongs to no compose project. -/
theorem C3_buildFlatList_structure (m : DockWatch.Model) :
    ((DockWatch.buildFlatList m).flatList =
      (DockWatch.sortStrings (m.projects.map Prod.fst)).flatMap
          (DockWatch.projectRows m) ++ DockWatch.standaloneRows m) ∧
    List.Pairwise (fun a b : DockWatch.Str => a ≤ b)
      (DockWatch.sortStrings (m.projects.map Prod.fst)) ∧
    (DockWatch.sortStrings (m.projects.map Prod.fst)).Perm
      (m.projects.map Prod.fst) ∧
    (∀ name p, DockWatch.assocFind m.projects name = some p →
      DockWatch.projectRows m name =
        { isProject := true, projectName := name, container := none,
          indent := 0, running := DockWatch.runningCount p.Containers,
          total := p.Containers.length } ::
          (if DockWatch.assocGet m.expandedProjects name then
            p.Containers.map DockWatch.leafRow
           else [])) ∧
    (DockWatch.standaloneRows m ≠ [] ↔
      ∃ c ∈ m.containers, ∀ np ∈ m.projects, ∀ d ∈ np.2.Containers,
        d.ID ≠ c.ID) := by
  refine ⟨rfl, DockWatch.sortStrings_sorted _, DockWatch.sortStrings_perm _,
    ?_, DockWatch.standaloneRows_ne_nil_iff m⟩
  intro name p hp
  unfold DockWatch.projectRows
  rw [hp]

namespace DockWatch

theorem updatePagination_preserves (m : Model) :
    (updatePagination m).containers = m.containers ∧
    (updatePagination m).projects = m.projects ∧
    (updatePagination m).logsLines = m.logsLines ∧
    (updatePagination m).statusMessage = m.statusMessage ∧
    (updatePagination m).err = m.err ∧
    (updatePagination m).logsVisible = m.logsVisible := by
  unfold updatePagination
  dsimp only
  split
  · exact ⟨rfl, rfl, rfl, rfl, rfl, rfl⟩
  · exact ⟨rfl, rfl, rfl, rfl, rfl, rfl⟩

end DockWatch

/-- Corrected C1: a failed container-list fetch leaves the container list
(and all other data) intact, recording the error in the `err` field but
setting no status notice; a failed compose fetch leaves the project map
intact and records a status notice; a failed logs fetch records a status
notice but discards the previously held log lines and hides the panel. -/
theorem C1_error_handling_amended :
    (∀ (m : DockWatch.Model) (cs : List DockWatch.Container) (e : DockWatch.Str),
      (DockWatch.updateContainersMsg m ⟨cs, some e⟩).containers = m.containers ∧
      (DockWatch.updateContainersMsg m ⟨cs, some e⟩).projects = m.projects ∧
      (DockWatch.updateContainersMsg m ⟨cs, some e⟩).logsLines = m.logsLines ∧
      (DockWatch.updateContainersMsg m ⟨cs, some e⟩).err = some e ∧
      (DockWatch.updateContainersMsg m ⟨cs, some e⟩).statusMessage =
        m.statusMessage) ∧
    (∀ (m : DockWatch.Model) (ps : List (DockWatch.Str × DockWatch.ComposeProject))
        (e : DockWatch.Str),
      (DockWatch.updateComposeMsg m ⟨ps, some e⟩).projects = m.projects ∧
      (DockWatch.updateComposeMsg m ⟨ps, some e⟩).containers = m.containers ∧
      (DockWatch.updateComposeMsg m ⟨ps, some e⟩).logsLines = m.logsLines ∧
      (DockWatch.updateComposeMsg m ⟨ps, some e⟩).statusMessage =
        DockWatch.str "Error fetching compose projects: " ++ e) ∧
    (∀ (m : DockWatch.Model) (id : DockWatch.Str) (ls : List DockWatch.Str)
        (e : DockWatch.Str),
      (DockWatch.updateLogsMsg m ⟨id, ls, some e⟩).containers = m.containers ∧
      (DockWatch.updateLogsMsg m ⟨id, ls, some e⟩).projects = m.projects ∧
      (DockWatch.updateLogsMsg m ⟨id, ls, some e⟩).logsLines = [] ∧
      (DockWatch.updateLogsMsg m ⟨id, ls, some e⟩).logsVisible = false ∧
      (DockWatch.updateLogsMsg m ⟨id, ls, some e⟩).statusMessage =
        DockWatch.str "Logs error: " ++ e) := by
  refine ⟨?_, ?_, ?_⟩
  · intro m cs e
    unfold DockWatch.updateContainersMsg
    dsimp only
    split
    · obtain ⟨hc, hp, hl, hs, he, hv⟩ := DockWatch.updatePagination_preserves _
      exact ⟨hc, hp, hl, he, hs⟩
    · obtain ⟨hc, hp, hl, hs, he, hv⟩ := DockWatch.updatePagination_preserves _
      exact ⟨hc, hp, hl, he, hs⟩
  · intro m ps e
    unfold DockWatch.updateComposeMsg
    dsimp only
    obtain ⟨hc, hp, hl, hs, he, hv⟩ := DockWatch.updatePagination_preserves _
    exact ⟨hp, hc, hl, hs⟩
  · intro m id ls e
    unfold DockWatch.updateLogsMsg
    dsimp only
    obtain ⟨hc, hp, hl, hs, he, hv⟩ := DockWatch.updatePagination_preserves _
    exact ⟨hc, hp, hl, hv, hs⟩

/-- Counterexample to C1 as stated: a logs-fetch error does not leave the
previously held log lines unchanged — it clears them (and hides the
panel). -/
theorem C1_counterexample :
    (DockWatch.updateLogsMsg
        { DockWatch.InitialModel with
          logsLines := [DockWatch.str "old log line"]
          logsVisible := true }
        ⟨DockWatch.str "c1", [], some (DockWatch.str "timeout")⟩).logsLines ≠
      ({ DockWatch.InitialModel with
          logsLines := [DockWatch.str "old log line"]
          logsVisible := true } : DockWatch.Model).logsLines := by
  decide

namespace DockWatch

theorem bumpFirst_sum (k : ℕ) (ws : List ℕ) :
    (bumpFirst k ws).sum = ws.sum + min k ws.length := by
  induction ws generalizing k with
  | nil => cases k <;> simp [bumpFirst]
  | cons w t ih =>
    cases k with
    | zero => simp [bumpFirst]
    | succ k =>
      rw [bumpFirst]
      simp only [List.sum_cons, ih k, List.length_cons]
      omega

theorem bumpFirst_le (k : ℕ) (ws : List ℕ) :
    List.Forall₂ (· ≤ ·) ws (bumpFirst k ws) := by
  induction ws generalizing k with
  | nil => cases k <;> simp [bumpFirst]
  | cons w t ih =>
    cases k with
    | zero =>
      rw [bumpFirst]
      exact List.forall₂_same.2 (fun x _ => le_refl x)
    | succ k =>
      rw [bumpFirst]
      exact List.Forall₂.cons (Nat.le_succ w) (ih k)

theorem distributeRemainder_sum (r : ℕ) (ws : List ℕ) (h : ws ≠ []) :
    (distributeRemainder r ws).sum = ws.sum + r := by
  induction r using Nat.strong_induction_on generalizing ws with
  | _ r ih =>
    cases r with
    | zero => simp [distributeRemainder]
    | succ r =>
      rw [distributeRemainder, dif_neg h]
      have hlen : 0 < ws.length := List.length_pos.2 h
      have hk1 : min (r + 1) ws.length ≤ r + 1 := Nat.min_le_left _ _
      have hk : 0 < min (r + 1) ws.length :=
        lt_min (Nat.succ_pos r) hlen
      have hne : bumpFirst (min (r + 1) ws.length) ws ≠ [] := by
        intro hb
        have := (bumpFirst_le (min (r + 1) ws.length) ws).length_eq
        rw [hb] at this
        exact absurd (by simpa using this : ws = []) h
      rw [ih (r + 1 - min (r + 1) ws.length) (Nat.sub_lt (Nat.succ_pos r) hk)
        _ hne, bumpFirst_sum]
      have hmm : min (min (r + 1) ws.length) ws.length =
          min (r + 1) ws.length := by
        rw [Nat.min_assoc, Nat.min_self]
      rw [hmm]
      omega

theorem forall₂_le_trans {l1 l2 l3 : List ℕ}
    (h1 : List.Forall₂ (· ≤ ·) l1 l2) (h2 : List.Forall₂ (· ≤ ·) l2 l3) :
    List.Forall₂ (· ≤ ·) l1 l3 := by
  induction h1 generalizing l3 with
  | nil => cases h2; exact List.Forall₂.nil
  | cons hab hrest ih =>
    cases h2 with
    | cons hbc hrest2 => exact List.Forall₂.cons (le_trans hab hbc) (ih hrest2)

theorem distributeRemainder_le (r : ℕ) (ws : List ℕ) :
    List.Forall₂ (· ≤ ·) ws (distributeRemainder r ws) := by
  induction r using Nat.strong_induction_on generalizing ws with
  | _ r ih =>
    cases r with
    | zero =>
      rw [distributeRemainder]
      exact List.forall₂_same.2 (fun x _ => le_refl x)
    | succ r =>
      by_cases h : ws = []
      · rw [distributeRemainder, dif_pos h]
        exact List.forall₂_same.2 (fun x _ => le_refl x)
      · rw [distributeRemainder, dif_neg h]
        have hlen : 0 < ws.length := List.length_pos.2 h
        have step := bumpFirst_le (min (r + 1) ws.length) ws
        have rest := ih (r + 1 - min (r + 1) ws.length) (by omega)
          (bumpFirst (min (r + 1) ws.length) ws)
        exact forall₂_le_trans step rest

end DockWatch

namespace DockWatch

theorem forall₂_le_zipWith_max (g : ℕ → ℕ → ℕ) :
    ∀ (l l' : List ℕ), l.length = l'.length →
      List.Forall₂ (· ≤ ·) l
        (List.zipWith (fun mn pc => max mn (g mn pc)) l l')
  | [], [], _ => List.Forall₂.nil
  | [], _ :: _, h => by simp at h
  | _ :: _, [], h => by simp at h
  | a :: l, b :: l', h => by
    rw [List.zipWith_cons_cons]
    exact List.Forall₂.cons (Nat.le_max_left _ _)
      (forall₂_le_zipWith_max g l l' (by simpa using h))

end DockWatch

/-- Corrected C7: each column is allocated
`max(minimum, floor(usable*percent/100))` and the remainder is distributed
round-robin; every allocated width is at least its configured minimum, and
the total is `max(usable, Σ base)` — exactly the usable width whenever the
minimum-respecting base allocation fits in it, and the (overflowing) base
total otherwise. -/
theorem C7_layout_amended (usable : ℕ) (pcts : List ℕ)
    (hlen : pcts.length = 9) :
    List.Forall₂ (· ≤ ·) DockWatch.colMins
      (DockWatch.allocateWidths usable pcts) ∧
    (DockWatch.allocateWidths usable pcts).sum =
      max usable
        (List.zipWith (fun mn pc => max mn (usable * pc / 100))
          DockWatch.colMins pcts).sum ∧
    ((List.zipWith (fun mn pc => max mn (usable * pc / 100))
        DockWatch.colMins pcts).sum ≤ usable →
      (DockWatch.allocateWidths usable pcts).sum = usable) := by
  have hbase := DockWatch.forall₂_le_zipWith_max
    (fun _ pc => usable * pc / 100) DockWatch.colMins pcts
    (by simp [DockWatch.colMins, hlen])
  have hblen : (List.zipWith (fun mn pc => max mn (usable * pc / 100))
      DockWatch.colMins pcts).length = 9 := by
    have := hbase.length_eq
    simpa [DockWatch.colMins] using this.symm
  have hbne : (List.zipWith (fun mn pc => max mn (usable * pc / 100))
      DockWatch.colMins pcts) ≠ [] := by
    intro hb
    rw [hb] at hblen
    simp at hblen
  unfold DockWatch.allocateWidths
  dsimp only
  rw [if_pos hlen]
  by_cases hlt : (List.zipWith (fun mn pc => max mn (usable * pc / 100))
      DockWatch.colMins pcts).sum < usable
  · rw [if_pos hlt]
    have hsum := DockWatch.distributeRemainder_sum
      (usable - (List.zipWith (fun mn pc => max mn (usable * pc / 100))
        DockWatch.colMins pcts).sum) _ hbne
    refine ⟨DockWatch.forall₂_le_trans hbase
      (DockWatch.distributeRemainder_le _ _), ?_, ?_⟩
    · rw [hsum]; omega
    · intro _; rw [hsum]; omega
  · rw [if_neg hlt]
    refine ⟨hbase, by omega, fun hle => by omega⟩

/-- Counterexample to C7 as stated: at terminal width 80 (usable width 78)
with the default column percentages, the minimum widths force the total
allocation past the usable width, so the row does not exactly fill it. -/
theorem C7_counterexample :
    (DockWatch.viewWidths
        { DockWatch.InitialModel with terminalWidth := 80 }).sum ≠ 80 - 2 := by
  decide

/-- Witness for the corrected C7 at usable width 198 with the default
percentages (whose base allocation fits, so the row exactly fills). -/
theorem C7_layout_amended_witness :
    (([8, 14, 6, 6, 10, 12, 18, 13, 13] : List ℕ).length = 9) ∧
    (List.Forall₂ (· ≤ ·) DockWatch.colMins
      (DockWatch.allocateWidths 198 [8, 14, 6, 6, 10, 12, 18, 13, 13]) ∧
    (DockWatch.allocateWidths 198 [8, 14, 6, 6, 10, 12, 18, 13, 13]).sum =
      max 198
        (List.zipWith (fun mn pc => max mn (198 * pc / 100))
          DockWatch.colMins [8, 14, 6, 6, 10, 12, 18, 13, 13]).sum ∧
    ((List.zipWith (fun mn pc => max mn (198 * pc / 100))
        DockWatch.colMins [8, 14, 6, 6, 10, 12, 18, 13, 13]).sum ≤ 198 →
      (DockWatch.allocateWidths 198 [8, 14, 6, 6, 10, 12, 18, 13, 13]).sum =
        198)) :=
  ⟨by decide, C7_layout_amended 198 [8, 14, 6, 6, 10, 12, 18, 13, 13] (by decide)⟩

/-- Corrected C8: a Tick always reschedules itself; outside ComposeView it
issues a fresh FetchContainers (plus FetchLogs when the logs panel is open
on a container), but in ComposeView it issues FetchComposeProjects
*instead of* FetchContainers; while `suspendRefresh` is set (Settings or
Help open) the Tick reschedules itself and issues no fetches, and the
Settings/Help toggles clear the suspension on exit. -/
theorem C8_tick_dispatch_amended (m : DockWatch.Model) :
    (m.suspendRefresh = true →
      (DockWatch.updateTickMsg m).2 = [DockWatch.Cmd.tick]) ∧
    (m.suspendRefresh = false → m.logsVisible = true → m.logsContainer ≠ [] →
      (DockWatch.updateTickMsg m).2 =
        [DockWatch.Cmd.fetchContainers, DockWatch.Cmd.tick,
         DockWatch.Cmd.fetchLogs m.logsContainer]) ∧
    (m.suspendRefresh = false → ¬(m.logsVisible = true ∧ m.logsContainer ≠ []) →
      m.composeViewMode = true →
      (DockWatch.updateTickMsg m).2 =
        [DockWatch.Cmd.fetchComposeProjects, DockWatch.Cmd.tick]) ∧
    (m.suspendRefresh = false → ¬(m.logsVisible = true ∧ m.logsContainer ≠ []) →
      m.composeViewMode = false →
      (DockWatch.updateTickMsg m).2 =
        [DockWatch.Cmd.fetchContainers, DockWatch.Cmd.tick]) ∧
    ((DockWatch.updateTickMsg m).1 = m) ∧
    (m.currentMode = DockWatch.modeSettings →
      (DockWatch.updateKeyF2 m).1.suspendRefresh = false) ∧
    (m.currentMode ≠ DockWatch.modeSettings →
      (DockWatch.updateKeyF2 m).1.suspendRefresh = true ∧
      (DockWatch.updateKeyF2 m).1.currentMode = DockWatch.modeSettings) ∧
    (m.currentMode = DockWatch.modeHelp →
      (DockWatch.updateKeyHelp m).1.suspendRefresh = false) ∧
    (m.currentMode ≠ DockWatch.modeHelp →
      (DockWatch.updateKeyHelp m).1.suspendRefresh = true ∧
      (DockWatch.updateKeyHelp m).1.currentMode = DockWatch.modeHelp) := by
  refine ⟨?_, ?_, ?_, ?_, ?_, ?_, ?_, ?_, ?_⟩
  · intro hs
    unfold DockWatch.updateTickMsg
    rw [if_pos hs]
  · intro hs hl hc
    unfold DockWatch.updateTickMsg
    rw [if_neg (by simp [hs]), if_pos ⟨hl, hc⟩]
  · intro hs hl hcv
    unfold DockWatch.updateTickMsg
    rw [if_neg (by simp [hs]), if_neg hl, if_pos hcv]
  · intro hs hl hcv
    unfold DockWatch.updateTickMsg
    rw [if_neg (by simp [hs]), if_neg hl, if_neg (by simp [hcv])]
  · unfold DockWatch.updateTickMsg
    split
    · rfl
    · split
      · rfl
      · split <;> rfl
  · intro hm
    unfold DockWatch.updateKeyF2
    rw [if_pos hm]
  · intro hm
    unfold DockWatch.updateKeyF2
    rw [if_neg hm]
    exact ⟨rfl, rfl⟩
  · intro hm
    unfold DockWatch.updateKeyHelp
    rw [if_pos hm]
  · intro hm
    unfold DockWatch.updateKeyHelp
    rw [if_neg hm]
    exact ⟨rfl, rfl⟩

/-- Counterexample to C8 as stated: in ComposeView (refresh not suspended,
logs closed) the Tick does not issue any FetchContainers — it issues
FetchComposeProjects instead. -/
theorem C8_counterexample :
    DockWatch.Cmd.fetchContainers ∉
      (DockWatch.updateTickMsg
        { DockWatch.InitialModel with composeViewMode := true }).2 ∧
    (DockWatch.updateTickMsg
        { DockWatch.InitialModel with composeViewMode := true }).2 =
      [DockWatch.Cmd.fetchComposeProjects, DockWatch.Cmd.tick] := by
  constructor
  · decide
  · decide

/-- Witness for the corrected C8 at concrete states: a suspended state, a
ComposeView state, a plain state, and a Settings state being closed. -/
theorem C8_tick_dispatch_amended_witness :
    ((DockWatch.updateTickMsg
        { DockWatch.InitialModel with suspendRefresh := true }).2 =
      [DockWatch.Cmd.tick]) ∧
    ((DockWatch.updateTickMsg
        { DockWatch.InitialModel with composeViewMode := true }).2 =
      [DockWatch.Cmd.fetchComposeProjects, DockWatch.Cmd.tick]) ∧
    ((DockWatch.updateTickMsg DockWatch.InitialModel).2 =
      [DockWatch.Cmd.fetchContainers, DockWatch.Cmd.tick]) ∧
    ((DockWatch.updateKeyF2
        { DockWatch.InitialModel with
          currentMode := DockWatch.modeSettings }).1.suspendRefresh = false) ∧
    ((DockWatch.updateKeyHelp
        { DockWatch.InitialModel with
          currentMode := DockWatch.modeHelp }).1.suspendRefresh = false) :=
  ⟨(C8_tick_dispatch_amended
      { DockWatch.InitialModel with suspendRefresh := true }).1 (by decide),
   ((C8_tick_dispatch_amended
      { DockWatch.InitialModel with composeViewMode := true }).2.2.1
      (by decide) (by decide) (by decide)),
   ((C8_tick_dispatch_amended DockWatch.InitialModel).2.2.2.1
      (by decide) (by decide) (by decide)),
   ((C8_tick_dispatch_amended
      { DockWatch.InitialModel with
        currentMode := DockWatch.modeSettings }).2.2.2.2.2.1 (by decide)),
   ((C8_tick_dispatch_amended
      { DockWatch.InitialModel with
        currentMode := DockWatch.modeHelp }).2.2.2.2.2.2.2.1 (by decide))⟩

namespace DockWatch

theorem div_add_div_le (a b n : ℕ) (hn : 0 < n) :
    a / n + b / n ≤ (a + b) / n := by
  rw [Nat.le_div_iff_mul_le hn, Nat.add_mul]
  exact Nat.add_le_add (Nat.div_mul_le_self a n) (Nat.div_mul_le_self b n)

theorem sum_map_div_le (ps : List ℕ) (n : ℕ) (hn : 0 < n) :
    (ps.map (fun p => p * 100 / n)).sum ≤ (ps.sum * 100) / n := by
  induction ps with
  | nil => simp
  | cons p t ih =>
    rw [List.map_cons, List.sum_cons, List.sum_cons, Nat.add_mul]
    exact le_trans (Nat.add_le_add_left ih _) (div_add_div_le _ _ n hn)

theorem normalizePercents_sum (ps : List ℕ) :
    (normalizePercents ps).sum = 100 := by
  unfold normalizePercents
  dsimp only
  by_cases h0 : ps.sum = 0
  · rw [if_pos h0]
    decide
  · rw [if_neg h0]
    by_cases h100 : ps.sum = 100
    · rw [if_neg (by simpa using h100)]
      exact h100
    · rw [if_pos (by simpa using h100)]
      have hn : 0 < ps.sum := Nat.pos_of_ne_zero h0
      have hacc : (ps.map (fun p => p * 100 / ps.sum)).sum ≤ 100 := by
        have := sum_map_div_le ps ps.sum hn
        rwa [Nat.mul_div_cancel_left 100 hn] at this
      by_cases hlt : (ps.map (fun p => p * 100 / ps.sum)).sum < 100
      · rw [if_pos hlt]
        cases ps with
        | nil => simp at h0
        | cons q qs =>
          rw [List.map_cons]
          dsimp only
          have hsplit :
              (List.map (fun p => p * 100 / (q :: qs).sum) (q :: qs)).sum =
                q * 100 / (q :: qs).sum +
                  (List.map (fun p => p * 100 / (q :: qs).sum) qs).sum := by
            rw [List.map_cons, List.sum_cons]
          simp only [List.sum_cons] at hlt hsplit ⊢
          omega
      · rw [if_neg hlt]
        omega

end DockWatch

/-- Corrected C10: leaving Settings through the `f2` toggle normalises the
column-width percentages so they sum to exactly 100, but leaving through
`esc` skips normalisation and keeps the percentages unchanged (so their sum
can differ from 100). -/
theorem C10_settings_exit_amended :
    (∀ m : DockWatch.Model, m.currentMode = DockWatch.modeSettings →
      ((DockWatch.updateKeyF2 m).1.settings.ColumnPercents.sum = 100 ∧
       (DockWatch.updateKeyF2 m).1.currentMode = DockWatch.modeNormal)) ∧
    (∀ m : DockWatch.Model,
      (DockWatch.updateSettingsEsc m).settings.ColumnPercents =
        m.settings.ColumnPercents ∧
      (DockWatch.updateSettingsEsc m).currentMode = DockWatch.modeNormal) := by
  constructor
  · intro m hm
    unfold DockWatch.updateKeyF2
    rw [if_pos hm]
    exact ⟨DockWatch.normalizePercents_sum _, rfl⟩
  · intro m
    exact ⟨rfl, rfl⟩

/-- Counterexample to C10 as stated: open Settings (`f2`), bump one column
percent (`+`), and leave via `esc` — the state is out of Settings but the
nine percentages sum to 101, not 100. -/
theorem C10_counterexample :
    (DockWatch.updateSettingsEsc
        (DockWatch.updateSettingsPlus
          (DockWatch.updateKeyF2 DockWatch.InitialModel).1)).currentMode =
      DockWatch.modeNormal ∧
    (DockWatch.updateSettingsEsc
        (DockWatch.updateSettingsPlus
          (DockWatch.updateKeyF2
            DockWatch.InitialModel).1)).settings.ColumnPercents.sum ≠ 100 := by
  constructor
  · decide
  · decide

/-- Witness for the corrected C10: the same bumped Settings state leaves
with percentages summing to exactly 100 when exited through `f2`. -/
theorem C10_settings_exit_amended_witness :
    ((DockWatch.updateSettingsPlus
        (DockWatch.updateKeyF2 DockWatch.InitialModel).1).currentMode =
      DockWatch.modeSettings) ∧
    ((DockWatch.updateKeyF2
        (DockWatch.updateSettingsPlus
          (DockWatch.updateKeyF2
            DockWatch.InitialModel).1)).1.settings.ColumnPercents.sum = 100 ∧
     (DockWatch.updateKeyF2
        (DockWatch.updateSettingsPlus
          (DockWatch.updateKeyF2 DockWatch.InitialModel).1)).1.currentMode =
      DockWatch.modeNormal) :=
  ⟨by decide,
    C10_settings_exit_amended.1
      (DockWatch.updateSettingsPlus
        (DockWatch.updateKeyF2 DockWatch.InitialModel).1) (by decide)⟩

/-- Counterexample to C9 as stated: in the flattened tree
[header, container, header, container] with the cursor on the last
container, moving up lands on the header row directly above rather than
seeking past it to the previous container. -/
theorem C9_counterexample :
    DockWatch.moveCursorUpTree DockWatch.sampleTree 3 = 2 ∧
    (DockWatch.sampleTree[2]?).map DockWatch.treeRow.isProject = some true := by
  constructor
  · decide
  · decide

/-- Corrected C9: the `compose-view.go` cursor movers move by exactly one
row, clamped to the ends of the flattened sequence, and their result
depends only on the sequence's length — never on which rows are headers
(so the cursor can rest on a header row). -/
theorem C9_cursor_step_amended :
    (∀ (fl fl' : List DockWatch.treeRow) (c : ℕ), fl.length = fl'.length →
      DockWatch.moveCursorUpTree fl c = DockWatch.moveCursorUpTree fl' c ∧
      DockWatch.moveCursorDownTree fl c = DockWatch.moveCursorDownTree fl' c) ∧
    (∀ (fl : List DockWatch.treeRow) (c : ℕ), fl ≠ [] →
      DockWatch.moveCursorUpTree fl c = (if 0 < c then c - 1 else c) ∧
      DockWatch.moveCursorDownTree fl c =
        (if c < fl.length - 1 then c + 1 else c)) := by
  constructor
  · intro fl fl' c hlen
    unfold DockWatch.moveCursorUpTree DockWatch.moveCursorDownTree
    rw [hlen]
    exact ⟨rfl, rfl⟩
  · intro fl c hne
    have hlen : ¬(fl.length = 0) := by
      simpa using hne
    unfold DockWatch.moveCursorUpTree DockWatch.moveCursorDownTree
    rw [if_neg hlen, if_neg hlen]
    exact ⟨rfl, rfl⟩

/-- Witness for the corrected C9: header-blindness and the one-step
characterisation at the concrete four-row tree. -/
theorem C9_cursor_step_amended_witness :
    (DockWatch.moveCursorUpTree DockWatch.sampleTree 3 =
        DockWatch.moveCursorUpTree DockWatch.sampleTreeNoHeaders 3 ∧
      DockWatch.moveCursorDownTree DockWatch.sampleTree 3 =
        DockWatch.moveCursorDownTree DockWatch.sampleTreeNoHeaders 3) ∧
    (DockWatch.moveCursorUpTree DockWatch.sampleTree 3 = (if 0 < 3 then 3 - 1 else 3) ∧
      DockWatch.moveCursorDownTree DockWatch.sampleTree 3 =
        (if 3 < DockWatch.sampleTree.length - 1 then 3 + 1 else 3)) :=
  ⟨C9_cursor_step_amended.1 DockWatch.sampleTree DockWatch.sampleTreeNoHeaders 3
      (by decide),
   C9_cursor_step_amended.2 DockWatch.sampleTree 3 (by decide)⟩
